import Mathlib

/-!
# Intel/Altera FPGA PLL reconfiguration driver: coefficient search, selection, encoding

Shallow embedding of `altera_pll.c`.

Machine model.  `u32` values are natural numbers below `2^32`; every `u32`
operation of the source is followed by an explicit `% U32_MOD`.  `unsigned long`
and `long` are 64 bits wide, as in the data model of the specification
(`rate: u64`); `unsigned long` operations are followed by `% ULONG_MOD`.
`int` and `long` results are integers.  An integer division by zero is a
distinguished outcome of the run, and so is running out of loop fuel.
-/

namespace AlteraPll

/-! ## Machine model -/

/-- Modulus of the type `u32`. -/
def U32_MOD : Nat := 2 ^ 32

/-- Modulus of the type `unsigned long` (64 bits). -/
def ULONG_MOD : Nat := 2 ^ 64

/-- Result of running a piece of the driver. -/
inductive Outcome (α : Type) where
  /-- normal completion with a value -/
  | ok (a : α)
  /-- an integer division with divisor zero was executed -/
  | div_zero
  /-- the loop fuel of the model ran out before the code finished -/
  | timeout
  deriving DecidableEq, Repr

/-- Conversion of an `unsigned long` value to `long` (two's complement, 64 bits). -/
def to_long (x : Nat) : Int :=
  if x % ULONG_MOD < 2 ^ 63 then ((x % ULONG_MOD : Nat) : Int)
  else ((x % ULONG_MOD : Nat) : Int) - ((ULONG_MOD : Nat) : Int)

/-- Reduction of an integer into the range of `long` (two's complement, 64 bits). -/
def wrap_long (z : Int) : Int :=
  to_long (z % ((ULONG_MOD : Nat) : Int)).toNat

/-- The kernel macro `abs` applied to an `unsigned long` argument: the argument
is converted to `long` and negated when it is negative; the result is a `long`. -/
def abs_ulong (x : Nat) : Int :=
  let s := to_long x
  if s < 0 then wrap_long (-s) else s

/-! ## Register defines and data structures -/

/-- Register index `ALTERA_PLL_REGIDX_MODE`. -/
def ALTERA_PLL_REGIDX_MODE : Nat := 0

/-- Register index `ALTERA_PLL_REGIDX_START`. -/
def ALTERA_PLL_REGIDX_START : Nat := 2

/-- Register index `ALTERA_PLL_REGIDX_COUNT_N`. -/
def ALTERA_PLL_REGIDX_COUNT_N : Nat := 3

/-- Register index `ALTERA_PLL_REGIDX_COUNT_M`. -/
def ALTERA_PLL_REGIDX_COUNT_M : Nat := 4

/-- Register index `ALTERA_PLL_REGIDX_COUNT_C`. -/
def ALTERA_PLL_REGIDX_COUNT_C : Nat := 5

/-- Register index `ALTERA_PLL_REGIDX_BANDWITH`. -/
def ALTERA_PLL_REGIDX_BANDWITH : Nat := 8

/-- Register index `ALTERA_PLL_REGIDX_CHARGE_PUMP`. -/
def ALTERA_PLL_REGIDX_CHARGE_PUMP : Nat := 9

/-- Register mask `COUNTER_BYPASS_ENABLE`, `(1<<16)`. -/
def COUNTER_BYPASS_ENABLE : Nat := 1 <<< 16

/-- Register mask `COUNTER_ODD_DIVIDE_ENABLE`, `(1<<17)`. -/
def COUNTER_ODD_DIVIDE_ENABLE : Nat := 1 <<< 17

/-- The C structure `struct pll_descr`. -/
structure pll_descr where
  f_in : Nat
  f_out : Nat
  m : Nat
  n : Nat
  c : Nat
  deriving DecidableEq, Repr

/-- A descriptor whose five fields are `u32` values. -/
def pll_descr.wf (d : pll_descr) : Prop :=
  d.f_in < U32_MOD ∧ d.f_out < U32_MOD ∧ d.m < U32_MOD ∧ d.n < U32_MOD ∧ d.c < U32_MOD

instance (d : pll_descr) : Decidable d.wf := by
  unfold pll_descr.wf; infer_instance

/-- The C structure `struct pll_config`. -/
structure pll_config where
  rate : Nat
  count_m : Nat
  count_n : Nat
  count_c : Nat
  bandwith : Nat
  charge_pump : Nat
  deriving DecidableEq, Repr

/-- One `iowrite32(val, addr)`. -/
structure reg_write where
  addr : Nat
  val : Nat
  deriving DecidableEq, Repr

/-- The fields of `struct altera_pll` the clock operations use; `mmio = 0` is
the `NULL` pointer. -/
structure altera_pll where
  rate : Nat
  mmio : Nat
  deriving DecidableEq, Repr

/-! ## Register encoder -/

/-- The C function `to_counter_reg` on a `u32` count. -/
def to_counter_reg (count : Nat) : Nat :=
  let res := (count / 2) % U32_MOD
  if count &&& 1 ≠ 0 then
    let res1 := res ||| ((((res + 1) % U32_MOD) <<< 8) % U32_MOD)
    res1 ||| COUNTER_ODD_DIVIDE_ENABLE
  else
    res ||| ((res <<< 8) % U32_MOD)

/-- The C function `to_pll_config`. -/
def to_pll_config (descr : pll_descr) : pll_config :=
  { rate := descr.f_out
    charge_pump := 2
    count_m := to_counter_reg descr.m
    count_n := to_counter_reg descr.n
    count_c := to_counter_reg descr.c
    bandwith :=
      if descr.f_out > 100000000 then 6
      else if descr.f_out > 130000000 then 5
      else if descr.f_out > 150000000 then 4
      else if descr.f_out > 190000000 then 3
      else 8 }

/-! ## Candidate selector -/

/-- The C function `choose_better`.  The sums and the two frequency
differences are `u32` expressions; the differences are then widened to
`unsigned long`. -/
def choose_better (a b : pll_descr) : Outcome pll_descr :=
  let a_sum := (((a.m + a.n) % U32_MOD) + a.c) % U32_MOD
  let b_sum := (((b.m + b.n) % U32_MOD) + b.c) % U32_MOD
  if a.n = 0 ∨ a.c = 0 then .div_zero
  else
    let a_f := (a.f_out + U32_MOD - (((a.f_in / a.n) * a.m) % U32_MOD) / a.c) % U32_MOD
    if b.n = 0 ∨ b.c = 0 then .div_zero
    else
      let b_f := (b.f_out + U32_MOD - (((b.f_in / b.n) * b.m) % U32_MOD) / b.c) % U32_MOD
      if a_f ≠ 0 ∨ b_f ≠ 0 then
        if abs_ulong a_f > abs_ulong b_f then .ok b else .ok a
      else if a_sum > b_sum then .ok b
      else .ok a

/-! ## Coefficient search -/

/-- Inner loop of `next`: `for(; m < 256; ++m)` for fixed `c_f_out`.
Result `some (m, n)` is the jump to `end`, `none` is the loop running to
`m = 256`.  The first argument is the fuel. -/
def next_m (f_in c_f_out : Nat) : Nat → Nat → Outcome (Option (Nat × Nat))
  | 0, _ => .timeout
  | fuel + 1, m =>
    if m < 256 then
      let f_fb := (f_in * m) % U32_MOD
      if f_fb ≥ (2 * c_f_out) % ULONG_MOD then
        if c_f_out = 0 then .div_zero
        else
          let n := (f_fb / c_f_out) % U32_MOD
          if n = 0 then next_m f_in c_f_out fuel ((m + 1) % U32_MOD)
          else
            let f_vco := f_fb / n
            if f_vco < 300000000 ∨ f_vco > 800000000 then
              next_m f_in c_f_out fuel ((m + 1) % U32_MOD)
            else .ok (some (m, n))
      else next_m f_in c_f_out fuel ((m + 1) % U32_MOD)
    else .ok none

/-- Outer loop of `next`: `for(; c < 256; ++c)`.  Result `some (m, n, c)` is
the jump to `end`, `none` is the fall through to `return 0`.  The first
argument is the fuel. -/
def next_c (f_in f_out : Nat) : Nat → Nat → Outcome (Option (Nat × Nat × Nat))
  | 0, _ => .timeout
  | fuel + 1, c =>
    if c < 256 then
      let c_f_out := (c * f_out) % U32_MOD
      if f_in = 0 then .div_zero
      else
        let m := (c_f_out / f_in) % U32_MOD
        match next_m f_in c_f_out 257 m with
        | .ok (some (m1, n1)) => .ok (some (m1, n1, c))
        | .ok none => next_c f_in f_out fuel ((c + 1) % U32_MOD)
        | .div_zero => .div_zero
        | .timeout => .timeout
    else .ok none

/-- The C function `next`: the returned pair is the `int` result and the
descriptor `*config` after the call. -/
def next (config : pll_descr) : Outcome (Nat × pll_descr) :=
  match next_c config.f_in config.f_out 257 ((config.c + 1) % U32_MOD) with
  | .ok (some (m, n, c)) => .ok (1, { config with n := n, m := m, c := c })
  | .ok none => .ok (0, config)
  | .div_zero => .div_zero
  | .timeout => .timeout

/-! ## Rate computation and register stores -/

/-- The C function `get_actual_rate`; the three locals are `long`. -/
def get_actual_rate (descr : pll_descr) : Outcome Int :=
  if descr.n = 0 then .div_zero
  else
    let f_ref : Int := to_long (descr.f_in / descr.n)
    let f_vco : Int := wrap_long (f_ref * (descr.m : Int))
    if descr.c = 0 then .div_zero
    else .ok (wrap_long (Int.tdiv f_vco (descr.c : Int)))

/-- The C function `print_descr`: its only effect on the run is the two
divisions it executes (`dev_dbg` output is not modelled). -/
def print_descr (descr : pll_descr) : Outcome Unit :=
  if descr.n = 0 then .div_zero
  else if descr.c = 0 then .div_zero
  else .ok ()

/-- The C function `write_reg32`: one store at `pll->mmio + (idx * 4)`. -/
def write_reg32 (pll : altera_pll) (idx : Nat) (val : Nat) : List reg_write :=
  [{ addr := pll.mmio + idx * 4, val := val }]

/-- The C function `write_config`: the stores it performs, in program order. -/
def write_config (pll : altera_pll) (config : pll_config) : List reg_write :=
  write_reg32 pll ALTERA_PLL_REGIDX_MODE 0
    ++ write_reg32 pll ALTERA_PLL_REGIDX_COUNT_M config.count_m
    ++ write_reg32 pll ALTERA_PLL_REGIDX_COUNT_N config.count_n
    ++ write_reg32 pll ALTERA_PLL_REGIDX_COUNT_C config.count_c
    ++ write_reg32 pll ALTERA_PLL_REGIDX_BANDWITH config.bandwith
    ++ write_reg32 pll ALTERA_PLL_REGIDX_CHARGE_PUMP config.charge_pump
    ++ write_reg32 pll ALTERA_PLL_REGIDX_START 1

/-! ## Clock operations -/

/-- The descriptor both clock operations start from: `f_in = 50000000`,
`f_out = (u32) rate`, `m = 2`, `n = 2`, `c = 1`. -/
def seed_descr (rate : Nat) : pll_descr :=
  { f_in := 50000000, f_out := rate % U32_MOD, m := 2, n := 2, c := 1 }

/-- The loop `while(next(&tmp)) descr = choose_better(&descr, &tmp);` shared
by `altera_pll_round_rate` and `altera_pll_set_rate`; the result is the final
`descr`.  The first argument is the fuel. -/
def select_loop : Nat → pll_descr → pll_descr → Outcome pll_descr
  | 0, _, _ => .timeout
  | fuel + 1, descr, tmp =>
    match next tmp with
    | .ok (r, tmp1) =>
      if r ≠ 0 then
        match choose_better descr tmp1 with
        | .ok d => select_loop fuel d tmp1
        | .div_zero => .div_zero
        | .timeout => .timeout
      else .ok descr
    | .div_zero => .div_zero
    | .timeout => .timeout

/-- The search and select part of both clock operations: `tmp = descr;`
followed by the loop. -/
def search_select (rate : Nat) : Outcome pll_descr :=
  select_loop 256 (seed_descr rate) (seed_descr rate)

/-- The C function `altera_pll_recalc_rate`: the `unsigned long` it returns,
the device after the call and the register stores it performed. -/
def altera_pll_recalc_rate (pll : altera_pll) (_parent_rate : Nat) :
    Nat × altera_pll × List reg_write :=
  (pll.rate, pll, [])

/-- The C function `altera_pll_round_rate`: the `long` it returns, the device
after the call and the register stores it performed. -/
def altera_pll_round_rate (pll : altera_pll) (rate : Nat) :
    Outcome (Int × altera_pll × List reg_write) :=
  if pll.mmio = 0 then
    if rate = pll.rate then .ok (to_long rate, pll, []) else .ok (-1, pll, [])
  else
    match search_select rate with
    | .ok descr =>
      match print_descr descr with
      | .ok _ =>
        match get_actual_rate descr with
        | .ok r => .ok (r, pll, [])
        | .div_zero => .div_zero
        | .timeout => .timeout
      | .div_zero => .div_zero
      | .timeout => .timeout
    | .div_zero => .div_zero
    | .timeout => .timeout

/-- The C function `altera_pll_set_rate`: the `int` it returns, the device
after the call and the register stores it performed. -/
def altera_pll_set_rate (pll : altera_pll) (rate : Nat) (_parent_rate : Nat) :
    Outcome (Int × altera_pll × List reg_write) :=
  if pll.mmio = 0 then .ok (-1, pll, [])
  else
    match search_select rate with
    | .ok descr =>
      match print_descr descr with
      | .ok _ =>
        let config := to_pll_config descr
        .ok (0, { pll with rate := config.rate }, write_config pll config)
      | .div_zero => .div_zero
      | .timeout => .timeout
    | .div_zero => .div_zero
    | .timeout => .timeout

/-- The C function `altera_pll_enable`: the `int` it returns, the device
after the call and the register stores it performed. -/
def altera_pll_enable (pll : altera_pll) : Int × altera_pll × List reg_write :=
  (0, pll, [])

/-- The C function `altera_pll_disable`: the device after the call and the
register stores it performed. -/
def altera_pll_disable (pll : altera_pll) : altera_pll × List reg_write :=
  (pll, [])

/-! ## Specification of the search -/

/-- The `u32` product `c * config->f_out` of `next`. -/
def c_f_out_of (f_out c : Nat) : Nat := (c * f_out) % U32_MOD

/-- The `u32` product `config->f_in * m` of `next`. -/
def f_fb_of (f_in m : Nat) : Nat := (f_in * m) % U32_MOD

/-- First value of `m` the inner loop of `next` examines for a given `c`. -/
def m_start (f_in f_out c : Nat) : Nat := c_f_out_of f_out c / f_in

/-- Acceptance test of `next` for a pair `(c, m)`, with `X = c * f_out` and
`fb = f_in * m` computed as the code computes them: `fb >= 2 * X`, the
quotient `n = fb / X` is non-zero and `300000000 <= fb / n <= 800000000`. -/
def acc (f_in f_out c m : Nat) : Prop :=
  f_fb_of f_in m ≥ 2 * c_f_out_of f_out c ∧
  f_fb_of f_in m / c_f_out_of f_out c ≠ 0 ∧
  300000000 ≤ f_fb_of f_in m / (f_fb_of f_in m / c_f_out_of f_out c) ∧
  f_fb_of f_in m / (f_fb_of f_in m / c_f_out_of f_out c) ≤ 800000000

instance (f_in f_out c m : Nat) : Decidable (acc f_in f_out c m) := by
  unfold acc; infer_instance

/-- Acceptance test of the inner loop stated on the value `X` of `c_f_out`. -/
def acc_at (f_in X m : Nat) : Prop :=
  f_fb_of f_in m ≥ 2 * X ∧ f_fb_of f_in m / X ≠ 0 ∧
  300000000 ≤ f_fb_of f_in m / (f_fb_of f_in m / X) ∧
  f_fb_of f_in m / (f_fb_of f_in m / X) ≤ 800000000

/-- What the inner loop of `next` returns, for a non-zero `c_f_out`. -/
def next_m_post (f_in X m : Nat) : Outcome (Option (Nat × Nat)) → Prop
  | .ok (some (m1, n1)) =>
      m ≤ m1 ∧ m1 < 256 ∧ n1 = f_fb_of f_in m1 / X ∧ acc_at f_in X m1 ∧
      ∀ k, m ≤ k → k < m1 → ¬ acc_at f_in X k
  | .ok none => ∀ k, m ≤ k → k < 256 → ¬ acc_at f_in X k
  | .div_zero => False
  | .timeout => False

/-- What the outer loop of `next` returns when started at `c`. -/
def next_c_post (f_in f_out c : Nat) : Outcome (Option (Nat × Nat × Nat)) → Prop
  | .ok (some (m1, n1, c1)) =>
      c ≤ c1 ∧ c1 < 256 ∧ m_start f_in f_out c1 ≤ m1 ∧ m1 < 256 ∧
      n1 = f_fb_of f_in m1 / c_f_out_of f_out c1 ∧ acc f_in f_out c1 m1 ∧
      (∀ k, m_start f_in f_out c1 ≤ k → k < m1 → ¬ acc f_in f_out c1 k) ∧
      (∀ j, c ≤ j → j < c1 → ∀ k, m_start f_in f_out j ≤ k → k < 256 → ¬ acc f_in f_out j k) ∧
      (∀ j, c ≤ j → j ≤ c1 → c_f_out_of f_out j ≠ 0)
  | .ok none =>
      (∀ j, c ≤ j → j < 256 → ∀ k, m_start f_in f_out j ≤ k → k < 256 → ¬ acc f_in f_out j k) ∧
      (∀ j, c ≤ j → j < 256 → c_f_out_of f_out j ≠ 0)
  | .div_zero =>
      ∃ j, c ≤ j ∧ j < 256 ∧ c_f_out_of f_out j = 0 ∧
        (∀ i, c ≤ i → i < j → c_f_out_of f_out i ≠ 0) ∧
        (∀ i, c ≤ i → i < j → ∀ k, m_start f_in f_out i ≤ k → k < 256 → ¬ acc f_in f_out i k)
  | .timeout => False

/-- First value of `c` a call of `next` examines: the `u32` sum `config->c + 1`. -/
def c_first (seed : pll_descr) : Nat := (seed.c + 1) % U32_MOD

/-- What one call of `next` returns for a seed with non-zero `f_in`. -/
def next_post (seed : pll_descr) : Outcome (Nat × pll_descr) → Prop
  | .ok (r, d) =>
      (r = 1 ∧ d.f_in = seed.f_in ∧ d.f_out = seed.f_out ∧
        next_c_post seed.f_in seed.f_out (c_first seed) (.ok (some (d.m, d.n, d.c)))) ∨
      (r = 0 ∧ d = seed ∧ next_c_post seed.f_in seed.f_out (c_first seed) (.ok none))
  | .div_zero => next_c_post seed.f_in seed.f_out (c_first seed) .div_zero
  | .timeout => False

/-! ## Specification of the selection -/

/-- The candidate stream of a seed: the successive descriptors `next` leaves in
`tmp` while it returns 1.  The first argument is the fuel. -/
def candidates : Nat → pll_descr → Outcome (List pll_descr)
  | 0, _ => .timeout
  | fuel + 1, tmp =>
    match next tmp with
    | .ok (r, tmp1) =>
      if r ≠ 0 then
        match candidates fuel tmp1 with
        | .ok l => .ok (tmp1 :: l)
        | .div_zero => .div_zero
        | .timeout => .timeout
      else .ok []
    | .div_zero => .div_zero
    | .timeout => .timeout

/-- Left fold of `choose_better` over a list of descriptors. -/
def fold_choose : pll_descr → List pll_descr → Outcome pll_descr
  | d, [] => .ok d
  | d, x :: l =>
    match choose_better d x with
    | .ok d1 => fold_choose d1 l
    | .div_zero => .div_zero
    | .timeout => .timeout

/-- Frequency error of a descriptor as the specification words it:
`f_out − (f_in / n * m / c)` with integer division at each step, as a signed
integer. -/
def error_signed (x : pll_descr) : Int :=
  (x.f_out : Int) - ((x.f_in / x.n * x.m / x.c : Nat) : Int)

/-- The selection described as a fold seeded with the first candidate of the
stream: `none` for an empty stream, otherwise the left fold of `choose_better`
over the rest of the stream starting from its first element. -/
def first_seeded_select (rate : Nat) : Outcome (Option pll_descr) :=
  match candidates 256 (seed_descr rate) with
  | .ok [] => .ok none
  | .ok (x :: l) =>
    match fold_choose x l with
    | .ok w => .ok (some w)
    | .div_zero => .div_zero
    | .timeout => .timeout
  | .div_zero => .div_zero
  | .timeout => .timeout

/-! ## Evaluation shortcuts -/

/-- Evaluation shortcut for `next_c`: the inner loop is only run when `c_f_out`
lies in the window `(200000000, 800000000]`, outside of which it accepts
nothing.  Equal to `next_c` by `next_c_fast_eq`. -/
def next_c_fast (f_in f_out : Nat) : Nat → Nat → Outcome (Option (Nat × Nat × Nat))
  | 0, _ => .timeout
  | fuel + 1, c =>
    if c < 256 then
      if f_in = 0 then .div_zero
      else if c_f_out_of f_out c = 0 then .div_zero
      else if c_f_out_of f_out c ≤ 200000000 ∨ 800000000 < c_f_out_of f_out c then
        next_c_fast f_in f_out fuel (c + 1)
      else
        match next_m f_in (c_f_out_of f_out c) 257 (m_start f_in f_out c) with
        | .ok (some (m1, n1)) => .ok (some (m1, n1, c))
        | .ok none => next_c_fast f_in f_out fuel (c + 1)
        | .div_zero => .div_zero
        | .timeout => .timeout
    else .ok none

/-- Evaluation shortcut for `next`, equal to it by `next_fast_eq`. -/
def next_fast (config : pll_descr) : Outcome (Nat × pll_descr) :=
  match next_c_fast config.f_in config.f_out 257 ((config.c + 1) % U32_MOD) with
  | .ok (some (m, n, c)) => .ok (1, { config with n := n, m := m, c := c })
  | .ok none => .ok (0, config)
  | .div_zero => .div_zero
  | .timeout => .timeout

/-- Evaluation shortcut for `select_loop`, equal to it by `select_loop_fast_eq`. -/
def select_loop_fast : Nat → pll_descr → pll_descr → Outcome pll_descr
  | 0, _, _ => .timeout
  | fuel + 1, descr, tmp =>
    match next_fast tmp with
    | .ok (r, tmp1) =>
      if r ≠ 0 then
        match choose_better descr tmp1 with
        | .ok d => select_loop_fast fuel d tmp1
        | .div_zero => .div_zero
        | .timeout => .timeout
      else .ok descr
    | .div_zero => .div_zero
    | .timeout => .timeout

/-- Evaluation shortcut for `candidates`, equal to it by `candidates_fast_eq`. -/
def candidates_fast : Nat → pll_descr → Outcome (List pll_descr)
  | 0, _ => .timeout
  | fuel + 1, tmp =>
    match next_fast tmp with
    | .ok (r, tmp1) =>
      if r ≠ 0 then
        match candidates_fast fuel tmp1 with
        | .ok l => .ok (tmp1 :: l)
        | .div_zero => .div_zero
        | .timeout => .timeout
      else .ok []
    | .div_zero => .div_zero
    | .timeout => .timeout

/-- Evaluation shortcut for `first_seeded_select`, equal to it by
`first_seeded_select_fast_eq`. -/
def first_seeded_select_fast (rate : Nat) : Outcome (Option pll_descr) :=
  match candidates_fast 256 (seed_descr rate) with
  | .ok [] => .ok none
  | .ok (x :: l) =>
    match fold_choose x l with
    | .ok w => .ok (some w)
    | .div_zero => .div_zero
    | .timeout => .timeout
  | .div_zero => .div_zero
  | .timeout => .timeout

/-! ## Specification of the comparator -/

/-- The frequency difference `a_f` of `choose_better` as the code computes it:
a `u32` value. -/
def err_u32 (x : pll_descr) : Nat :=
  (x.f_out + U32_MOD - (((x.f_in / x.n) * x.m) % U32_MOD) / x.c) % U32_MOD

/-- The counter sum `a_sum` of `choose_better` as the code computes it. -/
def sum_u32 (x : pll_descr) : Nat :=
  (((x.m + x.n) % U32_MOD) + x.c) % U32_MOD

/-- The test under which `choose_better a b` returns `b`. -/
def better (b a : pll_descr) : Prop :=
  ((err_u32 a ≠ 0 ∨ err_u32 b ≠ 0) ∧ err_u32 b < err_u32 a) ∨
  (err_u32 a = 0 ∧ err_u32 b = 0 ∧ sum_u32 b < sum_u32 a)

instance (b a : pll_descr) : Decidable (better b a) := by
  unfold better; infer_instance

/-! ## Instrumented search -/

/-- The inner loop of `next` with a counter: the result of `next_m` together
with the number of executions of the loop body. -/
def next_m_run (f_in c_f_out : Nat) : Nat → Nat → Outcome (Option (Nat × Nat)) × Nat
  | 0, _ => (.timeout, 0)
  | fuel + 1, m =>
    if m < 256 then
      let f_fb := (f_in * m) % U32_MOD
      if f_fb ≥ (2 * c_f_out) % ULONG_MOD then
        if c_f_out = 0 then (.div_zero, 1)
        else
          let n := (f_fb / c_f_out) % U32_MOD
          if n = 0 then
            ((next_m_run f_in c_f_out fuel ((m + 1) % U32_MOD)).1,
              (next_m_run f_in c_f_out fuel ((m + 1) % U32_MOD)).2 + 1)
          else
            let f_vco := f_fb / n
            if f_vco < 300000000 ∨ f_vco > 800000000 then
              ((next_m_run f_in c_f_out fuel ((m + 1) % U32_MOD)).1,
                (next_m_run f_in c_f_out fuel ((m + 1) % U32_MOD)).2 + 1)
            else (.ok (some (m, n)), 1)
      else
        ((next_m_run f_in c_f_out fuel ((m + 1) % U32_MOD)).1,
          (next_m_run f_in c_f_out fuel ((m + 1) % U32_MOD)).2 + 1)
    else (.ok none, 0)

/-- The outer loop of `next` with a counter: the result of `next_c`, the total
number of executions of the inner loop body and the list of the values of `c`
for which the outer loop body ran. -/
def next_c_run (f_in f_out : Nat) :
    Nat → Nat → Outcome (Option (Nat × Nat × Nat)) × Nat × List Nat
  | 0, _ => (.timeout, 0, [])
  | fuel + 1, c =>
    if c < 256 then
      let c_f_out := (c * f_out) % U32_MOD
      if f_in = 0 then (.div_zero, 0, [c])
      else
        let m := (c_f_out / f_in) % U32_MOD
        match (next_m_run f_in c_f_out 257 m).1 with
        | .ok (some (m1, n1)) => (.ok (some (m1, n1, c)), (next_m_run f_in c_f_out 257 m).2, [c])
        | .ok none =>
          ((next_c_run f_in f_out fuel ((c + 1) % U32_MOD)).1,
            (next_m_run f_in c_f_out 257 m).2
              + (next_c_run f_in f_out fuel ((c + 1) % U32_MOD)).2.1,
            c :: (next_c_run f_in f_out fuel ((c + 1) % U32_MOD)).2.2)
        | .div_zero => (.div_zero, (next_m_run f_in c_f_out 257 m).2, [c])
        | .timeout => (.timeout, (next_m_run f_in c_f_out 257 m).2, [c])
    else (.ok none, 0, [])

/-- Number of executions of the inner loop body in one call of `next`. -/
def next_iters (config : pll_descr) : Nat :=
  (next_c_run config.f_in config.f_out 257 ((config.c + 1) % U32_MOD)).2.1

/-- The values of `c` one call of `next` examines. -/
def next_examined (config : pll_descr) : List Nat :=
  (next_c_run config.f_in config.f_out 257 ((config.c + 1) % U32_MOD)).2.2

/-! ## Theorems: register encoder -/

/-- C4: `to_counter_reg` on the 8-bit range.  For every even count up to 254 the
result is `(count/2) | ((count/2) << 8)` and the odd-divide bit is clear; for
every odd count up to 255 it is `(count/2) | (((count/2)+1) << 8) | (1<<17)`.
In particular `to_counter_reg 4 = 0x202`, and `to_counter_reg 5 = 0x20302` has
low byte 2, bits [15:8] equal to 3 and the odd-divide bit set. -/
theorem to_counter_reg_encoding :
    (∀ count, count ≤ 254 → count % 2 = 0 →
        to_counter_reg count = (count / 2) ||| ((count / 2) <<< 8) ∧
        to_counter_reg count &&& COUNTER_ODD_DIVIDE_ENABLE = 0) ∧
    (∀ count, count ≤ 255 → count % 2 = 1 →
        to_counter_reg count = (count / 2) ||| (((count / 2) + 1) <<< 8) ||| (1 <<< 17)) ∧
    to_counter_reg 4 = 0x202 ∧
    to_counter_reg 5 = 0x20302 ∧
    to_counter_reg 5 &&& 0xFF = 2 ∧
    (to_counter_reg 5 >>> 8) &&& 0xFF = 3 ∧
    to_counter_reg 5 &&& COUNTER_ODD_DIVIDE_ENABLE = COUNTER_ODD_DIVIDE_ENABLE := by
  refine ⟨?_, ?_, ?_, ?_, ?_, ?_, ?_⟩
  · decide!
  · decide!
  · decide
  · decide
  · decide
  · decide
  · decide

/-- Witness of C4: the general statement applied at the counts 4 and 5. -/
theorem to_counter_reg_encoding_witness :
    (4 ≤ 254 ∧ 4 % 2 = 0 ∧ to_counter_reg 4 = (4 / 2) ||| ((4 / 2) <<< 8)) ∧
    (5 ≤ 255 ∧ 5 % 2 = 1 ∧
      to_counter_reg 5 = (5 / 2) ||| (((5 / 2) + 1) <<< 8) ||| (1 <<< 17)) :=
  ⟨⟨by decide, by decide, (to_counter_reg_encoding.1 4 (by decide) (by decide)).1⟩,
   ⟨by decide, by decide, to_counter_reg_encoding.2.1 5 (by decide) (by decide)⟩⟩

/-- C5: the register image of a descriptor.  `rate` is `f_out`, `charge_pump`
is 2, the three counts are the encoded counters, and `bandwith` is 6 when
`f_out > 100000000` and 8 otherwise; 5, 4 and 3 are never produced. -/
theorem to_pll_config_image (d : pll_descr) :
    (to_pll_config d).rate = d.f_out ∧
    (to_pll_config d).charge_pump = 2 ∧
    (to_pll_config d).count_m = to_counter_reg d.m ∧
    (to_pll_config d).count_n = to_counter_reg d.n ∧
    (to_pll_config d).count_c = to_counter_reg d.c ∧
    (to_pll_config d).bandwith = (if d.f_out > 100000000 then 6 else 8) ∧
    (to_pll_config d).bandwith ≠ 5 ∧
    (to_pll_config d).bandwith ≠ 4 ∧
    (to_pll_config d).bandwith ≠ 3 := by
  have hb : (to_pll_config d).bandwith = (if d.f_out > 100000000 then 6 else 8) := by
    simp only [to_pll_config]
    split_ifs <;> first | rfl | omega
  refine ⟨rfl, rfl, rfl, rfl, rfl, hb, ?_, ?_, ?_⟩ <;>
    · rw [hb]; split_ifs <;> decide

/-- C6: the commit sequence.  `write_config` performs exactly seven stores, in
this order: MODE (index 0) with 0, COUNT_M (4), COUNT_N (3), COUNT_C (5),
BANDWITH (8), CHARGE_PUMP (9) with the fields of the image, and START (2) with
1, each at byte offset `index * 4` from the register base; START is the last
store and the only store to its address. -/
theorem write_config_sequence (pll : altera_pll) (cfg : pll_config) :
    write_config pll cfg =
      [ { addr := pll.mmio + 0 * 4, val := 0 },
        { addr := pll.mmio + 4 * 4, val := cfg.count_m },
        { addr := pll.mmio + 3 * 4, val := cfg.count_n },
        { addr := pll.mmio + 5 * 4, val := cfg.count_c },
        { addr := pll.mmio + 8 * 4, val := cfg.bandwith },
        { addr := pll.mmio + 9 * 4, val := cfg.charge_pump },
        { addr := pll.mmio + 2 * 4, val := 1 } ] ∧
    (write_config pll cfg).length = 7 ∧
    (write_config pll cfg).getLast? = some { addr := pll.mmio + 2 * 4, val := 1 } ∧
    ((write_config pll cfg).filter (fun w => w.addr = pll.mmio + 2 * 4)).length = 1 := by
  refine ⟨rfl, rfl, rfl, ?_⟩
  simp [write_config, write_reg32, ALTERA_PLL_REGIDX_MODE, ALTERA_PLL_REGIDX_START,
    ALTERA_PLL_REGIDX_COUNT_N, ALTERA_PLL_REGIDX_COUNT_M, ALTERA_PLL_REGIDX_COUNT_C,
    ALTERA_PLL_REGIDX_BANDWITH, ALTERA_PLL_REGIDX_CHARGE_PUMP, List.filter]

/-! ## Theorems: coefficient search -/

theorem c_f_out_of_lt (f_out c : Nat) : c_f_out_of f_out c < U32_MOD :=
  Nat.mod_lt _ (by decide)

theorem f_fb_of_lt (f_in m : Nat) : f_fb_of f_in m < U32_MOD :=
  Nat.mod_lt _ (by decide)

theorem acc_iff_acc_at (f_in f_out c m : Nat) :
    acc f_in f_out c m ↔ acc_at f_in (c_f_out_of f_out c) m := Iff.rfl

theorem next_m_spec (f_in X : Nat) (hX0 : X ≠ 0) (hX : X < U32_MOD) :
    ∀ fuel m, 0 < fuel → 257 ≤ fuel + m → next_m_post f_in X m (next_m f_in X fuel m) := by
  intro fuel
  induction fuel with
  | zero => intro m h; omega
  | succ fuel ih =>
    intro m _ hfuel
    unfold next_m
    by_cases hm : m < 256
    · have hfuel0 : 0 < fuel := by omega
      have hmod : (m + 1) % U32_MOD = m + 1 := Nat.mod_eq_of_lt (by unfold U32_MOD; omega)
      have h2X : (2 * X) % ULONG_MOD = 2 * X :=
        Nat.mod_eq_of_lt (by unfold ULONG_MOD; unfold U32_MOD at hX; omega)
      have hfb : f_fb_of f_in m < U32_MOD := f_fb_of_lt f_in m
      have hn : (f_fb_of f_in m / X) % U32_MOD = f_fb_of f_in m / X :=
        Nat.mod_eq_of_lt (lt_of_le_of_lt (Nat.div_le_self _ _) hfb)
      have hrec := ih (m + 1) hfuel0 (by omega)
      -- a rejected `m` extends the exclusion range of the recursive call
      have hcont : ¬ acc_at f_in X m →
          next_m_post f_in X m (next_m f_in X fuel (m + 1)) := by
        intro hna
        revert hrec
        cases hres : next_m f_in X fuel (m + 1) with
        | ok o =>
          cases o with
          | none =>
            intro hrec k hk1 hk2
            by_cases hkm : k = m
            · subst hkm; exact hna
            · exact hrec k (by omega) hk2
          | some p =>
            obtain ⟨m1, n1⟩ := p
            intro hrec
            obtain ⟨h1, h2, h3, h4, h5⟩ := hrec
            refine ⟨by omega, h2, h3, h4, ?_⟩
            intro k hk1 hk2
            by_cases hkm : k = m
            · subst hkm; exact hna
            · exact h5 k (by omega) hk2
        | div_zero => intro hrec; exact hrec
        | timeout => intro hrec; exact hrec
      simp only [hm, if_true, hmod, h2X, hX0, if_false]
      change (if f_fb_of f_in m ≥ 2 * X then
          (if (f_fb_of f_in m / X) % U32_MOD = 0 then next_m f_in X fuel (m + 1)
           else if f_fb_of f_in m / ((f_fb_of f_in m / X) % U32_MOD) < 300000000 ∨
                f_fb_of f_in m / ((f_fb_of f_in m / X) % U32_MOD) > 800000000 then
             next_m f_in X fuel (m + 1)
           else Outcome.ok (some (m, (f_fb_of f_in m / X) % U32_MOD)))
        else next_m f_in X fuel (m + 1)) |> next_m_post f_in X m
      rw [hn]
      by_cases hge : f_fb_of f_in m ≥ 2 * X
      · rw [if_pos hge]
        by_cases hn0 : f_fb_of f_in m / X = 0
        · rw [if_pos hn0]
          exact hcont (fun h => h.2.1 hn0)
        · rw [if_neg hn0]
          by_cases hv : f_fb_of f_in m / (f_fb_of f_in m / X) < 300000000 ∨
              f_fb_of f_in m / (f_fb_of f_in m / X) > 800000000
          · rw [if_pos hv]
            refine hcont (fun h => ?_)
            have := h.2.2.1
            have := h.2.2.2
            omega
          · rw [if_neg hv]
            refine ⟨le_refl _, hm, rfl, ⟨hge, hn0, by omega, by omega⟩, ?_⟩
            intro k hk1 hk2
            omega
      · rw [if_neg hge]
        exact hcont (fun h => hge h.1)
    · simp only [hm, if_false]
      intro k hk1 hk2
      omega

/-- With `c_f_out = 0` the first inner iteration divides by zero. -/
theorem next_m_zero (f_in fuel m : Nat) (hm : m < 256) :
    next_m f_in 0 (fuel + 1) m = .div_zero := by
  unfold next_m
  simp [hm]

theorem next_c_spec (f_in f_out : Nat) (hf : f_in ≠ 0) :
    ∀ fuel c, 0 < fuel → 257 ≤ fuel + c →
      next_c_post f_in f_out c (next_c f_in f_out fuel c) := by
  intro fuel
  induction fuel with
  | zero => intro c h; omega
  | succ fuel ih =>
    intro c _ hfuel
    unfold next_c
    by_cases hc : c < 256
    · have hfuel0 : 0 < fuel := by omega
      have hmod : (c + 1) % U32_MOD = c + 1 := Nat.mod_eq_of_lt (by unfold U32_MOD; omega)
      have hXlt : c_f_out_of f_out c < U32_MOD := c_f_out_of_lt f_out c
      have hms : (c_f_out_of f_out c / f_in) % U32_MOD = m_start f_in f_out c :=
        Nat.mod_eq_of_lt (lt_of_le_of_lt (Nat.div_le_self _ _) hXlt)
      simp only [hc, if_true, hf, if_false, hmod]
      change (match next_m f_in (c_f_out_of f_out c) 257
                ((c_f_out_of f_out c / f_in) % U32_MOD) with
        | .ok (some (m1, n1)) => Outcome.ok (some (m1, n1, c))
        | .ok none => next_c f_in f_out fuel (c + 1)
        | .div_zero => Outcome.div_zero
        | .timeout => Outcome.timeout) |> next_c_post f_in f_out c
      rw [hms]
      by_cases hX0 : c_f_out_of f_out c = 0
      · -- the division `f_fb / c_f_out` traps in the first inner iteration
        have hm0 : m_start f_in f_out c = 0 := by
          unfold m_start; rw [hX0]; exact Nat.zero_div _
        rw [hX0, hm0, next_m_zero f_in 256 0 (by decide)]
        exact ⟨c, le_refl _, hc, hX0, fun i h1 h2 => by omega, fun i h1 h2 => by omega⟩
      · have hin := next_m_spec f_in (c_f_out_of f_out c) hX0 hXlt 257
          (m_start f_in f_out c) (by decide) (by omega)
        revert hin
        cases hres : next_m f_in (c_f_out_of f_out c) 257 (m_start f_in f_out c) with
        | ok o =>
          cases o with
          | some p =>
            obtain ⟨m1, n1⟩ := p
            intro hin
            obtain ⟨h1, h2, h3, h4, h5⟩ := hin
            refine ⟨le_refl _, hc, h1, h2, h3, h4, h5, ?_, ?_⟩
            · intro j hj1 hj2; omega
            · intro j hj1 hj2
              have : j = c := by omega
              subst this; exact hX0
          | none =>
            intro hin
            have hrec := ih (c + 1) hfuel0 (by omega)
            revert hrec
            cases hres2 : next_c f_in f_out fuel (c + 1) with
            | ok o2 =>
              cases o2 with
              | some q =>
                obtain ⟨m1, n1, c1⟩ := q
                intro hrec
                obtain ⟨g1, g2, g3, g4, g5, g6, g7, g8, g9⟩ := hrec
                refine ⟨by omega, g2, g3, g4, g5, g6, g7, ?_, ?_⟩
                · intro j hj1 hj2 k hk1 hk2
                  by_cases hjc : j = c
                  · subst hjc; exact hin k hk1 hk2
                  · exact g8 j (by omega) hj2 k hk1 hk2
                · intro j hj1 hj2
                  by_cases hjc : j = c
                  · subst hjc; exact hX0
                  · exact g9 j (by omega) hj2
              | none =>
                intro hrec
                obtain ⟨g1, g2⟩ := hrec
                refine ⟨?_, ?_⟩
                · intro j hj1 hj2 k hk1 hk2
                  by_cases hjc : j = c
                  · subst hjc; exact hin k hk1 hk2
                  · exact g1 j (by omega) hj2 k hk1 hk2
                · intro j hj1 hj2
                  by_cases hjc : j = c
                  · subst hjc; exact hX0
                  · exact g2 j (by omega) hj2
            | div_zero =>
              intro hrec
              obtain ⟨j, g1, g2, g3, g4, g5⟩ := hrec
              refine ⟨j, by omega, g2, g3, ?_, ?_⟩
              · intro i hi1 hi2
                by_cases hic : i = c
                · subst hic; exact hX0
                · exact g4 i (by omega) hi2
              · intro i hi1 hi2 k hk1 hk2
                by_cases hic : i = c
                · subst hic; exact hin k hk1 hk2
                · exact g5 i (by omega) hi2 k hk1 hk2
            | timeout => intro hrec; exact hrec
        | div_zero => intro hin; exact hin.elim
        | timeout => intro hin; exact hin.elim
    · simp only [hc, if_false]
      exact ⟨fun j h1 h2 => by omega, fun j h1 h2 => by omega⟩

theorem c_f_out_of_zero (f_out : Nat) : c_f_out_of f_out 0 = 0 := by
  simp [c_f_out_of]

theorem next_spec (seed : pll_descr) (hf : seed.f_in ≠ 0) :
    next_post seed (next seed) := by
  have hspec := next_c_spec seed.f_in seed.f_out hf 257 (c_first seed)
    (by decide) (by omega)
  unfold next
  change (match next_c seed.f_in seed.f_out 257 (c_first seed) with
    | .ok (some (m, n, c)) => Outcome.ok (1, { seed with n := n, m := m, c := c })
    | .ok none => Outcome.ok (0, seed)
    | .div_zero => Outcome.div_zero
    | .timeout => Outcome.timeout) |> next_post seed
  revert hspec
  cases hres : next_c seed.f_in seed.f_out 257 (c_first seed) with
  | ok o =>
    cases o with
    | some q =>
      obtain ⟨m1, n1, c1⟩ := q
      intro hspec
      exact Or.inl ⟨rfl, rfl, rfl, hspec⟩
    | none =>
      intro hspec
      exact Or.inr ⟨rfl, rfl, hspec⟩
  | div_zero => intro hspec; exact hspec
  | timeout => intro hspec; exact hspec

/-- A call of `next` that returns has examined `c = seed.c + 1` first, without
`u32` wrap-around: the wrapped start `c = 0` always divides by zero. -/
theorem c_first_of_no_trap (seed : pll_descr) (hwf : seed.wf)
    (h : c_f_out_of seed.f_out (c_first seed) ≠ 0) : c_first seed = seed.c + 1 := by
  obtain ⟨_, _, _, _, hc⟩ := hwf
  by_cases hwrap : seed.c + 1 < U32_MOD
  · exact Nat.mod_eq_of_lt hwrap
  · exfalso
    apply h
    have h1 : seed.c + 1 = U32_MOD := by omega
    have h2 : c_first seed = 0 := by
      unfold c_first; rw [h1]; exact Nat.mod_self _
    rw [h2]; exact c_f_out_of_zero _

/-- C2: `next` returns the first accepted triple and is exhaustive.  For a seed
with `u32` fields and `f_in ≠ 0`: when `next` returns 1 with `(m, n, c)` then
`seed.c < c ≤ 255`, `m_start c ≤ m ≤ 255`, `n = fb / X`, `acc c m` holds, no
earlier `m` of the same `c` is accepted and no pair of an earlier `c` is
accepted; when `next` returns 0 the descriptor is unchanged and no pair with
`seed.c < c ≤ 255`, `m_start c ≤ m ≤ 255` is accepted.  The call never runs out
of fuel and its result is 0 or 1. -/
theorem next_first_accepted (seed : pll_descr) (hwf : seed.wf) (hf : seed.f_in ≠ 0) :
    (∀ d, next seed = .ok (1, d) →
        d.f_in = seed.f_in ∧ d.f_out = seed.f_out ∧
        seed.c < d.c ∧ d.c ≤ 255 ∧
        m_start seed.f_in seed.f_out d.c ≤ d.m ∧ d.m ≤ 255 ∧
        d.n = f_fb_of seed.f_in d.m / c_f_out_of seed.f_out d.c ∧
        acc seed.f_in seed.f_out d.c d.m ∧
        (∀ k, m_start seed.f_in seed.f_out d.c ≤ k → k < d.m →
          ¬ acc seed.f_in seed.f_out d.c k) ∧
        (∀ j, seed.c < j → j < d.c → ∀ k, m_start seed.f_in seed.f_out j ≤ k → k ≤ 255 →
          ¬ acc seed.f_in seed.f_out j k)) ∧
    (∀ d, next seed = .ok (0, d) →
        d = seed ∧
        (∀ j, seed.c < j → j ≤ 255 → ∀ k, m_start seed.f_in seed.f_out j ≤ k → k ≤ 255 →
          ¬ acc seed.f_in seed.f_out j k)) ∧
    next seed ≠ .timeout ∧
    (∀ r d, next seed = .ok (r, d) → r = 0 ∨ r = 1) := by
  have hspec := next_spec seed hf
  refine ⟨?_, ?_, ?_, ?_⟩
  · intro d hd
    rw [hd] at hspec
    rcases hspec with ⟨_, h1, h2, h3⟩ | ⟨h0, _⟩
    · obtain ⟨g1, g2, g3, g4, g5, g6, g7, g8, g9⟩ := h3
      have hfirst := c_first_of_no_trap seed hwf (g9 _ (le_refl _) g1)
      rw [hfirst] at g1 g8
      refine ⟨h1, h2, by omega, by omega, g3, by omega, g5, g6, g7, ?_⟩
      intro j hj1 hj2 k hk1 hk2
      exact g8 j (by omega) hj2 k hk1 (by omega)
    · exact absurd h0 (by decide)
  · intro d hd
    rw [hd] at hspec
    rcases hspec with ⟨h1, _⟩ | ⟨_, h1, h2, h3⟩
    · exact absurd h1 (by decide)
    · refine ⟨h1, ?_⟩
      intro j hj1 hj2 k hk1 hk2
      by_cases hlt : c_first seed < 256
      · have hfirst := c_first_of_no_trap seed hwf (h3 _ (le_refl _) hlt)
        exact h2 j (by omega) (by omega) k hk1 (by omega)
      · -- `seed.c + 1` is above 255 or wrapped to 0; the second case is excluded
        have hne : c_first seed ≠ 0 := by omega
        have hfirst : c_first seed = seed.c + 1 := by
          unfold c_first
          by_cases hwrap : seed.c + 1 < U32_MOD
          · exact Nat.mod_eq_of_lt hwrap
          · exfalso
            apply hne
            have h1 : seed.c + 1 = U32_MOD := by
              have := hwf.2.2.2.2
              omega
            unfold c_first; rw [h1]; exact Nat.mod_self _
        omega
  · intro h
    rw [h] at hspec
    exact hspec
  · intro r d h
    rw [h] at hspec
    rcases hspec with ⟨h1, _⟩ | ⟨h1, _⟩
    · exact Or.inr h1
    · exact Or.inl h1

/-- Witness of C2: the first call for `f_in = 50 MHz`, `f_out = 100 MHz` from the
seed `(m, n, c) = (2, 2, 1)` returns `(12, 2, 3)`. -/
theorem next_first_accepted_witness :
    (⟨50000000, 100000000, 2, 2, 1⟩ : pll_descr).wf ∧
    (⟨50000000, 100000000, 2, 2, 1⟩ : pll_descr).f_in ≠ 0 ∧
    next ⟨50000000, 100000000, 2, 2, 1⟩ = .ok (1, ⟨50000000, 100000000, 12, 2, 3⟩) ∧
    acc 50000000 100000000 3 12 ∧
    (∀ k, m_start 50000000 100000000 3 ≤ k → k < 12 → ¬ acc 50000000 100000000 3 k) ∧
    (∀ j, 1 < j → j < 3 → ∀ k, m_start 50000000 100000000 j ≤ k → k ≤ 255 →
      ¬ acc 50000000 100000000 j k) :=
  have h := (next_first_accepted ⟨50000000, 100000000, 2, 2, 1⟩ (by decide) (by decide)).1
    ⟨50000000, 100000000, 12, 2, 3⟩ (by decide!)
  ⟨by decide, by decide, by decide!, h.2.2.2.2.2.2.2.1, h.2.2.2.2.2.2.2.2.1,
    h.2.2.2.2.2.2.2.2.2⟩

/-! ## Theorems: evaluation shortcuts -/

/-- An accepted pair has `c_f_out` in the window `(200000000, 800000000]`: the
VCO frequency `fb / n` lies in `[X, 3X/2)`. -/
theorem acc_at_window (f_in X m : Nat) (h : acc_at f_in X m) :
    200000000 < X ∧ X ≤ 800000000 := by
  obtain ⟨h1, h2, h3, h4⟩ := h
  have hXpos : 0 < X := by
    rcases Nat.eq_zero_or_pos X with h0 | h0
    · subst h0; simp at h2
    · exact h0
  generalize hfb : f_fb_of f_in m = fb at *
  generalize hn : fb / X = n at *
  generalize hv : fb / n = v at *
  have hnpos : 0 < n := Nat.pos_of_ne_zero h2
  have hn2 : 2 ≤ n := by
    rw [← hn]; exact (Nat.le_div_iff_mul_le hXpos).2 (by omega)
  have e1 : X * n ≤ fb := by rw [← hn]; exact Nat.mul_div_le fb X
  have e2 : fb < X * (n + 1) := by rw [← hn]; exact Nat.lt_mul_div_succ fb hXpos
  have e3 : n * v ≤ fb := by rw [← hv]; exact Nat.mul_div_le fb n
  have e4 : fb < n * (v + 1) := by rw [← hv]; exact Nat.lt_mul_div_succ fb hnpos
  constructor
  · by_contra hle
    have hle2 : X ≤ 200000000 := by omega
    have a1 : X * (n + 1) ≤ 200000000 * (n + 1) := Nat.mul_le_mul_right _ hle2
    have a2 : n * 300000000 ≤ n * v := Nat.mul_le_mul_left _ h3
    omega
  · by_contra hgt
    have hv1 : v + 1 ≤ X := by omega
    have a1 : n * (v + 1) ≤ n * X := Nat.mul_le_mul_left _ hv1
    have a2 : n * X = X * n := Nat.mul_comm _ _
    omega

theorem next_m_outside_window (f_in X m : Nat) (hX0 : X ≠ 0) (hX : X < U32_MOD)
    (hw : X ≤ 200000000 ∨ 800000000 < X) :
    next_m f_in X 257 m = .ok none := by
  have hspec := next_m_spec f_in X hX0 hX 257 m (by decide) (by omega)
  revert hspec
  cases hres : next_m f_in X 257 m with
  | ok o =>
    cases o with
    | none => intro _; rfl
    | some p =>
      obtain ⟨m1, n1⟩ := p
      intro hspec
      have := acc_at_window f_in X m1 hspec.2.2.2.1
      omega
  | div_zero => intro hspec; exact hspec.elim
  | timeout => intro hspec; exact hspec.elim

theorem next_c_fast_eq (f_in f_out : Nat) :
    ∀ fuel c, next_c_fast f_in f_out fuel c = next_c f_in f_out fuel c := by
  intro fuel
  induction fuel with
  | zero => intro c; rfl
  | succ fuel ih =>
    intro c
    unfold next_c_fast next_c
    by_cases hc : c < 256
    · have hmod : (c + 1) % U32_MOD = c + 1 := Nat.mod_eq_of_lt (by unfold U32_MOD; omega)
      have hXlt : c_f_out_of f_out c < U32_MOD := c_f_out_of_lt f_out c
      have hms : (c_f_out_of f_out c / f_in) % U32_MOD = m_start f_in f_out c :=
        Nat.mod_eq_of_lt (lt_of_le_of_lt (Nat.div_le_self _ _) hXlt)
      simp only [hc, if_true, hmod]
      by_cases hf : f_in = 0
      · simp only [hf, if_true]
      · simp only [hf, if_false]
        change _ = (match next_m f_in (c_f_out_of f_out c) 257
                ((c_f_out_of f_out c / f_in) % U32_MOD) with
          | .ok (some (m1, n1)) => Outcome.ok (some (m1, n1, c))
          | .ok none => next_c f_in f_out fuel (c + 1)
          | .div_zero => Outcome.div_zero
          | .timeout => Outcome.timeout)
        rw [hms, ← ih (c + 1)]
        by_cases hX0 : c_f_out_of f_out c = 0
        · have hm0 : m_start f_in f_out c = 0 := by
            unfold m_start; rw [hX0]; exact Nat.zero_div _
          simp only [hX0, if_true, hm0]
          rw [next_m_zero f_in 256 0 (by decide)]
        · simp only [hX0, if_false]
          by_cases hw : c_f_out_of f_out c ≤ 200000000 ∨ 800000000 < c_f_out_of f_out c
          · simp only [hw, if_true]
            rw [next_m_outside_window f_in _ _ hX0 hXlt hw]
          · simp only [hw, if_false]
    · simp only [hc, if_false]

theorem next_fast_eq (config : pll_descr) : next_fast config = next config := by
  unfold next_fast next
  rw [next_c_fast_eq]

theorem select_loop_fast_eq :
    ∀ fuel descr tmp, select_loop_fast fuel descr tmp = select_loop fuel descr tmp := by
  intro fuel
  induction fuel with
  | zero => intro descr tmp; rfl
  | succ fuel ih =>
    intro descr tmp
    unfold select_loop_fast select_loop
    rw [next_fast_eq]
    simp only [ih]

theorem candidates_fast_eq :
    ∀ fuel tmp, candidates_fast fuel tmp = candidates fuel tmp := by
  intro fuel
  induction fuel with
  | zero => intro tmp; rfl
  | succ fuel ih =>
    intro tmp
    unfold candidates_fast candidates
    rw [next_fast_eq]
    simp only [ih]

theorem first_seeded_select_fast_eq (rate : Nat) :
    first_seeded_select_fast rate = first_seeded_select rate := by
  unfold first_seeded_select_fast first_seeded_select
  rw [candidates_fast_eq]

theorem search_select_fast_eq (rate : Nat) :
    select_loop_fast 256 (seed_descr rate) (seed_descr rate) = search_select rate := by
  unfold search_select
  rw [select_loop_fast_eq]

/-! ## Theorems: selection loop -/

/-- C1 (the code at the failing inputs): the products `c * f_out` and
`f_in * m` are formed in `u32`, so `next` accepts a triple whose true products
violate the feedback inequality (`f_in = 50 MHz`, `f_out = 100 MHz`, seed
`c = 8`, or directly seed `c = 44`: result `(12, 2, 45)`, where
`45 * 100000000` wraps to `205032704`) or the VCO range (`f_in = 2.3 GHz`,
`f_out = 250 MHz`, seed `c = 0`: result `(4, 2, 1)`, where `2300000000 * 4`
wraps to `610065408`). -/
theorem next_feedback_overflow :
    next ⟨50000000, 100000000, 32, 2, 8⟩ = .ok (1, ⟨50000000, 100000000, 12, 2, 45⟩) ∧
    next ⟨50000000, 100000000, 2, 2, 44⟩ = .ok (1, ⟨50000000, 100000000, 12, 2, 45⟩) ∧
    c_f_out_of 100000000 45 = 205032704 ∧
    ¬ (50000000 * 12 ≥ 2 * 45 * 100000000) ∧
    next ⟨2300000000, 250000000, 0, 0, 0⟩ = .ok (1, ⟨2300000000, 250000000, 4, 2, 1⟩) ∧
    f_fb_of 2300000000 4 = 610065408 ∧
    ¬ (2300000000 * 4 / 2 ≤ 800000000) := by
  refine ⟨?_, ?_, by decide, by decide, ?_, by decide, by decide⟩
  · rw [← next_fast_eq]; decide!
  · rw [← next_fast_eq]; decide!
  · rw [← next_fast_eq]; decide!

/-- C3 (the code at the failing inputs).  First input, the seed and the first
candidate of a 148.5 MHz request: with 64-bit `long` the two differences are
zero-extended `u32` values and `abs` leaves them unchanged, so the error
`-1500000` of `b` compares as `4293467296` and `choose_better` returns `a`,
whose error `98500000` has the larger magnitude.  Second input, with counters
in the 8-bit range: the `u32` product `f_in / n * m` of `a` wraps, so `a`, whose
error is 0, loses to `b`, whose error is `25000000`. -/
theorem choose_better_unsigned_error :
    choose_better ⟨50000000, 148500000, 2, 2, 1⟩ ⟨50000000, 148500000, 12, 2, 2⟩
      = .ok ⟨50000000, 148500000, 2, 2, 1⟩ ∧
    error_signed ⟨50000000, 148500000, 2, 2, 1⟩ = 98500000 ∧
    error_signed ⟨50000000, 148500000, 12, 2, 2⟩ = -1500000 ∧
    |error_signed ⟨50000000, 148500000, 12, 2, 2⟩|
      < |error_signed ⟨50000000, 148500000, 2, 2, 1⟩| ∧
    choose_better ⟨50000000, 100000000, 200, 1, 100⟩ ⟨50000000, 100000000, 12, 2, 4⟩
      = .ok ⟨50000000, 100000000, 12, 2, 4⟩ ∧
    error_signed ⟨50000000, 100000000, 200, 1, 100⟩ = 0 ∧
    error_signed ⟨50000000, 100000000, 12, 2, 4⟩ = 25000000 := by
  refine ⟨by decide, by decide, by decide, by decide, by decide, by decide, by decide⟩

theorem next_preserves (config d : pll_descr) (r : Nat) (h : next config = .ok (r, d)) :
    d.f_in = config.f_in ∧ d.f_out = config.f_out := by
  unfold next at h
  revert h
  cases next_c config.f_in config.f_out 257 ((config.c + 1) % U32_MOD) with
  | ok o =>
    cases o with
    | some q =>
      obtain ⟨m1, n1, c1⟩ := q
      intro h
      simp only [Outcome.ok.injEq, Prod.mk.injEq] at h
      rw [← h.2]
      exact ⟨rfl, rfl⟩
    | none =>
      intro h
      simp only [Outcome.ok.injEq, Prod.mk.injEq] at h
      rw [← h.2]
      exact ⟨rfl, rfl⟩
  | div_zero => intro h; exact Outcome.noConfusion h
  | timeout => intro h; exact Outcome.noConfusion h

theorem choose_better_cases (a b d : pll_descr) (h : choose_better a b = .ok d) :
    d = a ∨ d = b := by
  unfold choose_better at h
  simp only at h
  split_ifs at h <;> simp only [Outcome.ok.injEq] at h <;>
    first
    | exact Or.inl h.symm
    | exact Or.inr h.symm

theorem choose_better_ok (a b : pll_descr) (ha : a.n ≠ 0 ∧ a.c ≠ 0) (hb : b.n ≠ 0 ∧ b.c ≠ 0) :
    ∃ d, choose_better a b = .ok d := by
  unfold choose_better
  have h1 : ¬ (a.n = 0 ∨ a.c = 0) := by
    intro h; rcases h with h | h
    · exact ha.1 h
    · exact ha.2 h
  have h2 : ¬ (b.n = 0 ∨ b.c = 0) := by
    intro h; rcases h with h | h
    · exact hb.1 h
    · exact hb.2 h
  simp only [h1, h2, if_false]
  split_ifs <;> exact ⟨_, rfl⟩

/-- The selection loop is the left fold of `choose_better` over the candidate
stream. -/
theorem select_loop_fold :
    ∀ fuel descr tmp l, candidates fuel tmp = .ok l →
      select_loop fuel descr tmp = fold_choose descr l := by
  intro fuel
  induction fuel with
  | zero => intro descr tmp l h; exact Outcome.noConfusion h
  | succ fuel ih =>
    intro descr tmp l h
    unfold candidates at h
    unfold select_loop
    revert h
    cases hn : next tmp with
    | ok p =>
      obtain ⟨r, tmp1⟩ := p
      intro h
      dsimp only at h ⊢
      by_cases hr : r ≠ 0
      · rw [if_pos hr] at h ⊢
        revert h
        cases hc : candidates fuel tmp1 with
        | ok l1 =>
          intro h
          simp only [Outcome.ok.injEq] at h
          subst h
          unfold fold_choose
          cases hcb : choose_better descr tmp1 with
          | ok d => exact ih d tmp1 l1 hc
          | div_zero => rfl
          | timeout => rfl
        | div_zero => intro h; exact Outcome.noConfusion h
        | timeout => intro h; exact Outcome.noConfusion h
      · rw [if_neg hr] at h ⊢
        simp only [Outcome.ok.injEq] at h
        subst h
        rfl
    | div_zero => intro h; exact Outcome.noConfusion h
    | timeout => intro h; exact Outcome.noConfusion h

theorem fold_choose_mem :
    ∀ l d w, fold_choose d l = .ok w → w = d ∨ w ∈ l := by
  intro l
  induction l with
  | nil =>
    intro d w h
    unfold fold_choose at h
    simp only [Outcome.ok.injEq] at h
    exact Or.inl h.symm
  | cons x l ih =>
    intro d w h
    unfold fold_choose at h
    revert h
    cases hcb : choose_better d x with
    | ok d1 =>
      intro h
      rcases ih d1 w h with h1 | h1
      · rcases choose_better_cases d x d1 hcb with h2 | h2
        · exact Or.inl (h1.trans h2)
        · exact Or.inr (by rw [h1, h2]; exact List.mem_cons_self _ _)
      · exact Or.inr (List.mem_cons_of_mem _ h1)
    | div_zero => intro h; exact Outcome.noConfusion h
    | timeout => intro h; exact Outcome.noConfusion h

theorem fold_choose_ok :
    ∀ l d, (d.n ≠ 0 ∧ d.c ≠ 0) → (∀ x ∈ l, x.n ≠ 0 ∧ x.c ≠ 0) →
      ∃ w, fold_choose d l = .ok w := by
  intro l
  induction l with
  | nil => intro d _ _; exact ⟨d, rfl⟩
  | cons x l ih =>
    intro d hd hl
    have hx := hl x (List.mem_cons_self _ _)
    obtain ⟨d1, hd1⟩ := choose_better_ok d x hd hx
    unfold fold_choose
    rw [hd1]
    have hd1' : d1.n ≠ 0 ∧ d1.c ≠ 0 := by
      rcases choose_better_cases d x d1 hd1 with h | h
      · rw [h]; exact hd
      · rw [h]; exact hx
    exact ih d1 hd1' (fun y hy => hl y (List.mem_cons_of_mem _ hy))

/-- A descriptor `next` has accepted: same frequencies, a later `c`, counters
within 8 bits, and the acceptance test on the values the code computed. -/
theorem next_found (seed d : pll_descr) (r : Nat) (hwf : seed.wf) (hf : seed.f_in ≠ 0)
    (h : next seed = .ok (r, d)) (hr : r ≠ 0) :
    d.f_in = seed.f_in ∧ d.f_out = seed.f_out ∧ seed.c < d.c ∧ d.c ≤ 255 ∧ d.m ≤ 255 ∧
    d.n = f_fb_of seed.f_in d.m / c_f_out_of seed.f_out d.c ∧
    acc seed.f_in seed.f_out d.c d.m ∧ d.n ≠ 0 ∧ d.wf := by
  have hspec := next_spec seed hf
  rw [h] at hspec
  rcases hspec with ⟨_, h1, h2, h3⟩ | ⟨h0, _⟩
  · obtain ⟨g1, g2, g3, g4, g5, g6, g7, g8, g9⟩ := h3
    have hfirst := c_first_of_no_trap seed hwf (g9 _ (le_refl _) g1)
    rw [hfirst] at g1
    have hn0 : d.n ≠ 0 := by rw [g5]; exact g6.2.1
    have hnlt : d.n < U32_MOD := by
      rw [g5]
      exact lt_of_le_of_lt (Nat.div_le_self _ _) (f_fb_of_lt _ _)
    refine ⟨h1, h2, by omega, by omega, by omega, g5, g6, hn0, ?_⟩
    refine ⟨by rw [h1]; exact hwf.1, by rw [h2]; exact hwf.2.1, ?_, hnlt, ?_⟩
    · unfold U32_MOD; omega
    · unfold U32_MOD; omega
  · exact absurd h0 hr

/-- Every member of the candidate stream of a seed. -/
theorem candidates_props :
    ∀ fuel tmp l, tmp.wf → tmp.f_in ≠ 0 → candidates fuel tmp = .ok l →
      ∀ d ∈ l, d.f_in = tmp.f_in ∧ d.f_out = tmp.f_out ∧ tmp.c < d.c ∧ d.c ≤ 255 ∧
        d.m ≤ 255 ∧ d.n = f_fb_of tmp.f_in d.m / c_f_out_of tmp.f_out d.c ∧
        acc tmp.f_in tmp.f_out d.c d.m ∧ d.n ≠ 0 := by
  intro fuel
  induction fuel with
  | zero => intro tmp l _ _ h; exact Outcome.noConfusion h
  | succ fuel ih =>
    intro tmp l hwf hf h
    unfold candidates at h
    revert h
    cases hn : next tmp with
    | ok p =>
      obtain ⟨r, tmp1⟩ := p
      intro h
      dsimp only at h
      by_cases hr : r ≠ 0
      · rw [if_pos hr] at h
        obtain ⟨f1, f2, f3, f4, f5, f6, f7, f8, f9⟩ := next_found tmp tmp1 r hwf hf hn hr
        revert h
        cases hc : candidates fuel tmp1 with
        | ok l1 =>
          intro h
          simp only [Outcome.ok.injEq] at h
          subst h
          intro d hd
          rcases List.mem_cons.1 hd with hd1 | hd1
          · subst hd1
            exact ⟨f1, f2, f3, f4, f5, f6, f7, f8⟩
          · have hih := ih tmp1 l1 f9 (by rw [f1]; exact hf) hc d hd1
            obtain ⟨i1, i2, i3, i4, i5, i6, i7, i8⟩ := hih
            rw [f1] at i1 i6 i7
            rw [f2] at i2 i6 i7
            exact ⟨i1, i2, by omega, i4, i5, i6, i7, i8⟩
        | div_zero => intro h; exact Outcome.noConfusion h
        | timeout => intro h; exact Outcome.noConfusion h
      · rw [if_neg hr] at h
        simp only [Outcome.ok.injEq] at h
        subst h
        intro d hd
        exact absurd hd (List.not_mem_nil d)
    | div_zero => intro h; exact Outcome.noConfusion h
    | timeout => intro h; exact Outcome.noConfusion h

/-- The selection loop keeps the two frequencies of the descriptors it starts from. -/
theorem select_loop_freq (A B : Nat) :
    ∀ fuel descr tmp w, descr.f_in = A ∧ descr.f_out = B → tmp.f_in = A ∧ tmp.f_out = B →
      select_loop fuel descr tmp = .ok w → w.f_in = A ∧ w.f_out = B := by
  intro fuel
  induction fuel with
  | zero => intro descr tmp w _ _ h; exact Outcome.noConfusion h
  | succ fuel ih =>
    intro descr tmp w hd ht h
    unfold select_loop at h
    revert h
    cases hn : next tmp with
    | ok p =>
      obtain ⟨r, tmp1⟩ := p
      have hp := next_preserves tmp tmp1 r hn
      have ht1 : tmp1.f_in = A ∧ tmp1.f_out = B := ⟨hp.1.trans ht.1, hp.2.trans ht.2⟩
      intro h
      dsimp only at h
      by_cases hr : r ≠ 0
      · rw [if_pos hr] at h
        revert h
        cases hcb : choose_better descr tmp1 with
        | ok d =>
          intro h
          have hd1 : d.f_in = A ∧ d.f_out = B := by
            rcases choose_better_cases descr tmp1 d hcb with e | e
            · rw [e]; exact hd
            · rw [e]; exact ht1
          exact ih d tmp1 w hd1 ht1 h
        | div_zero => intro h; exact Outcome.noConfusion h
        | timeout => intro h; exact Outcome.noConfusion h
      · rw [if_neg hr] at h
        simp only [Outcome.ok.injEq] at h
        rw [← h]; exact hd
    | div_zero => intro h; exact Outcome.noConfusion h
    | timeout => intro h; exact Outcome.noConfusion h

theorem search_select_freq (rate : Nat) (w : pll_descr) (h : search_select rate = .ok w) :
    w.f_in = 50000000 ∧ w.f_out = rate % U32_MOD :=
  select_loop_freq 50000000 (rate % U32_MOD) 256 (seed_descr rate) (seed_descr rate) w
    ⟨rfl, rfl⟩ ⟨rfl, rfl⟩ h

theorem seed_descr_wf (rate : Nat) : (seed_descr rate).wf := by
  refine ⟨?_, Nat.mod_lt _ (by decide), ?_, ?_, ?_⟩
  · show 50000000 < U32_MOD; decide
  · show 2 < U32_MOD; decide
  · show 2 < U32_MOD; decide
  · show 1 < U32_MOD; decide

theorem next_no_timeout (seed : pll_descr) (hf : seed.f_in ≠ 0) : next seed ≠ .timeout := by
  intro h
  have hspec := next_spec seed hf
  rw [h] at hspec
  exact hspec

theorem choose_better_no_timeout (a b : pll_descr) : choose_better a b ≠ .timeout := by
  unfold choose_better
  simp only
  split_ifs <;> exact fun h => Outcome.noConfusion h

/-- The selection loop does not run out of fuel: every candidate has a larger
`c` than the one before, and `c` stays below 256. -/
theorem select_loop_no_timeout :
    ∀ fuel descr tmp, tmp.wf → tmp.f_in ≠ 0 → 0 < fuel → 256 ≤ fuel + tmp.c →
      select_loop fuel descr tmp ≠ .timeout := by
  intro fuel
  induction fuel with
  | zero => intro descr tmp _ _ h; omega
  | succ fuel ih =>
    intro descr tmp hwf hf _ hfuel
    unfold select_loop
    cases hn : next tmp with
    | ok p =>
      obtain ⟨r, tmp1⟩ := p
      dsimp only
      by_cases hr : r ≠ 0
      · rw [if_pos hr]
        obtain ⟨f1, _, f3, f4, _, _, _, _, f9⟩ := next_found tmp tmp1 r hwf hf hn hr
        cases hcb : choose_better descr tmp1 with
        | ok d =>
          exact ih d tmp1 f9 (by rw [f1]; exact hf) (by omega) (by omega)
        | div_zero => exact fun h => Outcome.noConfusion h
        | timeout => exact absurd hcb (choose_better_no_timeout descr tmp1)
      · rw [if_neg hr]
        exact fun h => Outcome.noConfusion h
    | div_zero => exact fun h => Outcome.noConfusion h
    | timeout => exact absurd hn (next_no_timeout tmp hf)

/-- The enumeration of the candidate stream does not run out of fuel. -/
theorem candidates_no_timeout :
    ∀ fuel tmp, tmp.wf → tmp.f_in ≠ 0 → 0 < fuel → 256 ≤ fuel + tmp.c →
      candidates fuel tmp ≠ .timeout := by
  intro fuel
  induction fuel with
  | zero => intro tmp _ _ h; omega
  | succ fuel ih =>
    intro tmp hwf hf _ hfuel
    unfold candidates
    cases hn : next tmp with
    | ok p =>
      obtain ⟨r, tmp1⟩ := p
      dsimp only
      by_cases hr : r ≠ 0
      · rw [if_pos hr]
        obtain ⟨f1, _, f3, f4, _, _, _, _, f9⟩ := next_found tmp tmp1 r hwf hf hn hr
        have hrec := ih tmp1 f9 (by rw [f1]; exact hf) (by omega) (by omega)
        cases hc : candidates fuel tmp1 with
        | ok l => exact fun h => Outcome.noConfusion h
        | div_zero => exact fun h => Outcome.noConfusion h
        | timeout => exact absurd hc hrec
      · rw [if_neg hr]
        exact fun h => Outcome.noConfusion h
    | div_zero => exact fun h => Outcome.noConfusion h
    | timeout => exact absurd hn (next_no_timeout tmp hf)

theorem search_select_no_timeout (rate : Nat) : search_select rate ≠ .timeout :=
  select_loop_no_timeout 256 (seed_descr rate) (seed_descr rate) (seed_descr_wf rate)
    (by show (50000000 : Nat) ≠ 0; decide) (by decide) (Nat.le_add_right _ _)

/-! ## Theorems: clock operations -/

/-- C7: postcondition of a successful `altera_pll_set_rate` on a device with a
register interface.  The stores are those of `write_config` for the image of
the descriptor the search and select loop ends with (`f_in = 50000000`,
`f_out` the rate truncated to 32 bits); the stored rate is the `rate` field of
that image, which is the requested rate truncated to 32 bits and is what
`altera_pll_recalc_rate` returns afterwards. -/
theorem set_rate_post (pll pll1 : altera_pll) (rate parent_rate : Nat) (ws : List reg_write)
    (hmmio : pll.mmio ≠ 0)
    (h : altera_pll_set_rate pll rate parent_rate = .ok (0, pll1, ws)) :
    ∃ w, search_select rate = .ok w ∧
      w.f_in = 50000000 ∧ w.f_out = rate % U32_MOD ∧
      ws = write_config pll (to_pll_config w) ∧
      pll1.rate = (to_pll_config w).rate ∧
      pll1.rate = rate % U32_MOD ∧
      pll1.mmio = pll.mmio ∧
      ∀ p, (altera_pll_recalc_rate pll1 p).1 = rate % U32_MOD := by
  unfold altera_pll_set_rate at h
  rw [if_neg hmmio] at h
  cases hs : search_select rate with
  | ok w =>
    have hfreq := search_select_freq rate w hs
    rw [hs] at h
    unfold print_descr at h
    dsimp only at h
    by_cases hn : w.n = 0
    · rw [if_pos hn] at h; exact Outcome.noConfusion h
    · rw [if_neg hn] at h
      by_cases hc : w.c = 0
      · rw [if_pos hc] at h; exact Outcome.noConfusion h
      · rw [if_neg hc] at h
        simp only [Outcome.ok.injEq, Prod.mk.injEq, true_and] at h
        obtain ⟨h1, h2⟩ := h
        have hr : pll1.rate = w.f_out := by rw [← h1]; rfl
        refine ⟨w, rfl, hfreq.1, hfreq.2, h2.symm, hr, hr.trans hfreq.2, ?_, ?_⟩
        · rw [← h1]
        · intro p
          exact hr.trans hfreq.2
  | div_zero => rw [hs] at h; exact Outcome.noConfusion h
  | timeout => rw [hs] at h; exact Outcome.noConfusion h

theorem search_select_100MHz :
    search_select 100000000 = .ok ⟨50000000, 100000000, 12, 2, 3⟩ := by
  rw [← search_select_fast_eq]
  decide!

theorem set_rate_100MHz :
    altera_pll_set_rate ⟨0, 4096⟩ 100000000 0 =
      .ok (0, ⟨100000000, 4096⟩,
        [⟨4096, 0⟩, ⟨4112, 0x606⟩, ⟨4108, 0x101⟩, ⟨4116, 0x20201⟩, ⟨4128, 8⟩, ⟨4132, 2⟩,
         ⟨4104, 1⟩]) := by
  unfold altera_pll_set_rate
  rw [search_select_100MHz]
  decide!

/-- Witness of C7: a device with register base 4096 set to 100 MHz. -/
theorem set_rate_post_witness :
    (⟨0, 4096⟩ : altera_pll).mmio ≠ 0 ∧
    altera_pll_set_rate ⟨0, 4096⟩ 100000000 0 =
      .ok (0, ⟨100000000, 4096⟩,
        [⟨4096, 0⟩, ⟨4112, 0x606⟩, ⟨4108, 0x101⟩, ⟨4116, 0x20201⟩, ⟨4128, 8⟩, ⟨4132, 2⟩,
         ⟨4104, 1⟩]) ∧
    ∃ w, search_select 100000000 = .ok w ∧
      w.f_in = 50000000 ∧ w.f_out = 100000000 % U32_MOD ∧
      [⟨4096, 0⟩, ⟨4112, 0x606⟩, ⟨4108, 0x101⟩, ⟨4116, 0x20201⟩, ⟨4128, 8⟩, ⟨4132, 2⟩,
         ⟨4104, 1⟩] = write_config ⟨0, 4096⟩ (to_pll_config w) ∧
      (⟨100000000, 4096⟩ : altera_pll).rate = (to_pll_config w).rate ∧
      (⟨100000000, 4096⟩ : altera_pll).rate = 100000000 % U32_MOD ∧
      (⟨100000000, 4096⟩ : altera_pll).mmio = (⟨0, 4096⟩ : altera_pll).mmio ∧
      ∀ p, (altera_pll_recalc_rate ⟨100000000, 4096⟩ p).1 = 100000000 % U32_MOD :=
  ⟨by decide, set_rate_100MHz,
    set_rate_post ⟨0, 4096⟩ ⟨100000000, 4096⟩ 100000000 0 _ (by decide) set_rate_100MHz⟩

theorem get_actual_rate_seed (rate : Nat) : get_actual_rate (seed_descr rate) = .ok 50000000 := by
  have h : get_actual_rate ⟨50000000, rate % U32_MOD, 2, 2, 1⟩
      = get_actual_rate ⟨50000000, 0, 2, 2, 1⟩ := rfl
  have h0 : get_actual_rate ⟨50000000, 0, 2, 2, 1⟩ = .ok 50000000 := by decide!
  exact h.trans h0

theorem print_descr_seed (rate : Nat) : print_descr (seed_descr rate) = .ok () := by
  rfl

/-- With no candidate the selection loop ends with the seed descriptor. -/
theorem search_select_exhausted (rate : Nat) (d : pll_descr)
    (h : next (seed_descr rate) = .ok (0, d)) : search_select rate = .ok (seed_descr rate) := by
  unfold search_select select_loop
  rw [h]
  rfl

/-- C8 as amended: when `next` finds no candidate from the seed, on a device
with a register interface `altera_pll_set_rate` returns 0, performs the stores
of `write_config` for the image of the seed descriptor `(m, n, c) = (2, 2, 1)`
and stores the requested rate truncated to 32 bits; `altera_pll_round_rate`
returns 50000000, the actual rate of the seed descriptor, and changes nothing. -/
theorem set_rate_search_exhausted (pll : altera_pll) (rate parent_rate : Nat) (d : pll_descr)
    (hmmio : pll.mmio ≠ 0) (h : next (seed_descr rate) = .ok (0, d)) :
    altera_pll_set_rate pll rate parent_rate =
      .ok (0, { pll with rate := rate % U32_MOD },
        write_config pll (to_pll_config (seed_descr rate))) ∧
    altera_pll_round_rate pll rate = .ok (50000000, pll, []) := by
  have hs := search_select_exhausted rate d h
  constructor
  · unfold altera_pll_set_rate
    rw [if_neg hmmio, hs]
    dsimp only
    rw [print_descr_seed]
    rfl
  · unfold altera_pll_round_rate
    rw [if_neg hmmio, hs]
    dsimp only
    rw [print_descr_seed]
    dsimp only
    rw [get_actual_rate_seed]

theorem next_seed_1Hz : next (seed_descr 1) = .ok (0, seed_descr 1) := by
  rw [← next_fast_eq]
  decide!

/-- Witness of C8 as amended: a requested rate of 1 Hz has no candidate. -/
theorem set_rate_search_exhausted_witness :
    (⟨0, 4096⟩ : altera_pll).mmio ≠ 0 ∧
    next (seed_descr 1) = .ok (0, seed_descr 1) ∧
    altera_pll_set_rate ⟨0, 4096⟩ 1 0 =
      .ok (0, { (⟨0, 4096⟩ : altera_pll) with rate := 1 % U32_MOD },
        write_config ⟨0, 4096⟩ (to_pll_config (seed_descr 1))) ∧
    altera_pll_round_rate ⟨0, 4096⟩ 1 = .ok (50000000, ⟨0, 4096⟩, []) :=
  ⟨by decide, next_seed_1Hz,
    set_rate_search_exhausted ⟨0, 4096⟩ 1 0 (seed_descr 1) (by decide) next_seed_1Hz⟩

/-- C8 as stated fails: for a requested rate of 1 Hz `next` finds no candidate,
yet `altera_pll_set_rate` returns 0, performs seven stores and changes the
stored rate from 0 to 1, and `altera_pll_round_rate` returns 50000000. -/
theorem set_rate_exhausted_not_failure :
    next (seed_descr 1) = .ok (0, seed_descr 1) ∧
    altera_pll_set_rate ⟨0, 4096⟩ 1 0 =
      .ok (0, ⟨1, 4096⟩,
        [⟨4096, 0⟩, ⟨4112, 0x101⟩, ⟨4108, 0x101⟩, ⟨4116, 0x20100⟩, ⟨4128, 8⟩, ⟨4132, 2⟩,
         ⟨4104, 1⟩]) ∧
    altera_pll_round_rate ⟨0, 4096⟩ 1 = .ok (50000000, ⟨0, 4096⟩, []) := by
  have hn : next (seed_descr 1) = .ok (0, seed_descr 1) := by
    rw [← next_fast_eq]; decide!
  have hs : search_select 1 = .ok (seed_descr 1) := search_select_exhausted 1 _ hn
  refine ⟨hn, ?_, ?_⟩
  · unfold altera_pll_set_rate
    rw [hs]; decide!
  · unfold altera_pll_round_rate
    rw [hs]; decide!

/-- C9: a device without register interface (`mmio = NULL`).
`altera_pll_set_rate` returns -1 for every requested rate;
`altera_pll_round_rate` returns the requested rate when it equals the stored
rate and -1 otherwise; neither performs a store nor changes the device.  The
requested rate is returned through the `long` result type of the function: the
result is the same 64-bit word, and the same number for every rate below
`2^63`. -/
theorem not_reconfigurable (pll : altera_pll) (rate parent_rate : Nat) (hmmio : pll.mmio = 0) :
    altera_pll_set_rate pll rate parent_rate = .ok (-1, pll, []) ∧
    (rate = pll.rate → altera_pll_round_rate pll rate = .ok (to_long rate, pll, [])) ∧
    (rate ≠ pll.rate → altera_pll_round_rate pll rate = .ok (-1, pll, [])) ∧
    (rate < 2 ^ 63 → to_long rate = (rate : Int)) ∧
    (rate < ULONG_MOD → to_long rate % ((ULONG_MOD : Nat) : Int) = (rate : Int)) := by
  refine ⟨?_, ?_, ?_, ?_, ?_⟩
  · unfold altera_pll_set_rate
    rw [if_pos hmmio]
  · intro he
    unfold altera_pll_round_rate
    rw [if_pos hmmio, if_pos he]
  · intro hne
    unfold altera_pll_round_rate
    rw [if_pos hmmio, if_neg hne]
  · intro hlt
    have hmod : rate % ULONG_MOD = rate :=
      Nat.mod_eq_of_lt (lt_trans hlt (by unfold ULONG_MOD; decide))
    unfold to_long
    rw [hmod, if_pos hlt]
  · intro hlt
    have hmod : rate % ULONG_MOD = rate := Nat.mod_eq_of_lt hlt
    unfold to_long
    rw [hmod]
    unfold ULONG_MOD at hlt ⊢
    split_ifs <;> omega

/-- Witness of C9: a device with `mmio = NULL` and stored rate 100 MHz. -/
theorem not_reconfigurable_witness :
    (⟨100000000, 0⟩ : altera_pll).mmio = 0 ∧
    altera_pll_set_rate ⟨100000000, 0⟩ 100000000 0 = .ok (-1, ⟨100000000, 0⟩, []) ∧
    altera_pll_round_rate ⟨100000000, 0⟩ 100000000 = .ok (100000000, ⟨100000000, 0⟩, []) ∧
    altera_pll_round_rate ⟨100000000, 0⟩ 25000000 = .ok (-1, ⟨100000000, 0⟩, []) :=
  ⟨rfl, (not_reconfigurable ⟨100000000, 0⟩ 100000000 0 rfl).1,
    by
      have h := (not_reconfigurable ⟨100000000, 0⟩ 100000000 0 rfl).2.1 rfl
      have e := (not_reconfigurable ⟨100000000, 0⟩ 100000000 0 rfl).2.2.2.1 (by decide)
      rw [e] at h
      exact h,
    (not_reconfigurable ⟨100000000, 0⟩ 25000000 0 rfl).2.2.1 (by decide)⟩

/-- C10 as stated fails: for a requested rate of 50 MHz the stream is
non-empty and the fold seeded with its first element ends with
`(m, n, c) = (12, 2, 6)`, but the loop of the clock operations ends with the
seed descriptor `(2, 2, 1)`, whose VCO frequency `f_in * m / n = 50 MHz` is
below the range of the search and which fails its feedback test. -/
theorem select_not_first_seeded :
    first_seeded_select 50000000 = .ok (some ⟨50000000, 50000000, 12, 2, 6⟩) ∧
    search_select 50000000 = .ok ⟨50000000, 50000000, 2, 2, 1⟩ ∧
    ¬ (300000000 ≤ 50000000 * 2 / 2) ∧
    ¬ acc 50000000 50000000 1 2 := by
  refine ⟨?_, ?_, by decide, by decide⟩
  · rw [← first_seeded_select_fast_eq]
    decide!
  · rw [← search_select_fast_eq]
    decide!

/-- C10 as amended: the fold is seeded with the seed descriptor.  Whenever the
candidate stream `l` of a requested rate is produced, the loop of the clock
operations is the left fold of `choose_better` over `l` starting from the seed
descriptor, it ends with a descriptor that is the seed descriptor or a member
of `l`, and every member of `l` has the frequencies of the seed and passes the
feedback and VCO-range tests of the search on the values the code computes. -/
theorem select_folds_from_seed (rate : Nat) (l : List pll_descr)
    (h : candidates 256 (seed_descr rate) = .ok l) :
    search_select rate = fold_choose (seed_descr rate) l ∧
    (∃ w, search_select rate = .ok w ∧ (w = seed_descr rate ∨ w ∈ l)) ∧
    (∀ d ∈ l, d.f_in = 50000000 ∧ d.f_out = rate % U32_MOD ∧
      acc 50000000 (rate % U32_MOD) d.c d.m ∧
      f_fb_of 50000000 d.m ≥ 2 * c_f_out_of (rate % U32_MOD) d.c ∧
      d.n = f_fb_of 50000000 d.m / c_f_out_of (rate % U32_MOD) d.c ∧
      300000000 ≤ f_fb_of 50000000 d.m / d.n ∧
      f_fb_of 50000000 d.m / d.n ≤ 800000000) := by
  have hfold : search_select rate = fold_choose (seed_descr rate) l :=
    select_loop_fold 256 (seed_descr rate) (seed_descr rate) l h
  have hprops := candidates_props 256 (seed_descr rate) l (seed_descr_wf rate)
    (by show (50000000 : Nat) ≠ 0; decide) h
  have hok : ∃ w, fold_choose (seed_descr rate) l = .ok w := by
    refine fold_choose_ok l (seed_descr rate) ⟨?_, ?_⟩ ?_
    · show (2 : Nat) ≠ 0; decide
    · show (1 : Nat) ≠ 0; decide
    · intro x hx
      obtain ⟨_, _, p3, _, _, _, _, p8⟩ := hprops x hx
      exact ⟨p8, by omega⟩
  refine ⟨hfold, ?_, ?_⟩
  · obtain ⟨w, hw⟩ := hok
    exact ⟨w, hfold.trans hw, fold_choose_mem l (seed_descr rate) w hw⟩
  · intro d hd
    obtain ⟨p1, p2, _, _, _, p6, p7, _⟩ := hprops d hd
    have p6' : d.n = f_fb_of 50000000 d.m / c_f_out_of (rate % U32_MOD) d.c := p6
    have p7' : acc 50000000 (rate % U32_MOD) d.c d.m := p7
    refine ⟨p1, p2, p7', p7'.1, p6', ?_, ?_⟩
    · rw [p6']; exact p7'.2.2.1
    · rw [p6']; exact p7'.2.2.2

theorem candidates_790kHz :
    candidates 256 (seed_descr 790000) =
      .ok [⟨50000000, 790000, 12, 2, 254⟩, ⟨50000000, 790000, 12, 2, 255⟩] := by
  rw [← candidates_fast_eq]
  decide!

/-- Witness of C10 as amended: a requested rate of 790 kHz has the two
candidates `(12, 2, 254)` and `(12, 2, 255)`. -/
theorem select_folds_from_seed_witness :
    candidates 256 (seed_descr 790000) =
      .ok [⟨50000000, 790000, 12, 2, 254⟩, ⟨50000000, 790000, 12, 2, 255⟩] ∧
    search_select 790000 = fold_choose (seed_descr 790000)
      [⟨50000000, 790000, 12, 2, 254⟩, ⟨50000000, 790000, 12, 2, 255⟩] ∧
    (∃ w, search_select 790000 = .ok w ∧
      (w = seed_descr 790000 ∨
        w ∈ [(⟨50000000, 790000, 12, 2, 254⟩ : pll_descr), ⟨50000000, 790000, 12, 2, 255⟩])) :=
  ⟨candidates_790kHz,
    (select_folds_from_seed 790000 _ candidates_790kHz).1,
    (select_folds_from_seed 790000 _ candidates_790kHz).2.1⟩

/-! ## Theorems: further properties of the encoder -/

/-- C15 as stated fails: the image of a descriptor with `f_out = 100000000`
has `bandwith = 8`, which is not below 8. -/
theorem bandwith_not_three_bits :
    (to_pll_config ⟨50000000, 100000000, 12, 2, 3⟩).bandwith = 8 ∧
    ¬ ((to_pll_config ⟨50000000, 100000000, 12, 2, 3⟩).bandwith < 8) := by
  decide

/-- C15 as amended: the bandwidth field of every register image is a 4-bit
code.  For every descriptor it is at most 8, hence below 16; it is 6 when
`f_out > 100000000` and 8 otherwise. -/
theorem bandwith_four_bits (d : pll_descr) :
    (to_pll_config d).bandwith ≤ 8 ∧
    (to_pll_config d).bandwith < 16 ∧
    ((to_pll_config d).bandwith = 6 ∨ (to_pll_config d).bandwith = 8) ∧
    (d.f_out ≤ 100000000 → (to_pll_config d).bandwith = 8) ∧
    (d.f_out > 100000000 → (to_pll_config d).bandwith = 6) ∧
    (to_pll_config d).bandwith = (if d.f_out > 100000000 then 6 else 8) := by
  have hb : (to_pll_config d).bandwith = (if d.f_out > 100000000 then 6 else 8) := by
    simp only [to_pll_config]
    split_ifs <;> first | rfl | omega
  rw [hb]
  split_ifs with h
  · exact ⟨by decide, by decide, Or.inl rfl, fun h1 => by omega, fun _ => rfl, rfl⟩
  · exact ⟨by decide, by decide, Or.inr rfl, fun _ => rfl, fun h1 => absurd h1 h, rfl⟩

/-- Witness of C15 as amended: the images of a 148.5 MHz and of a 100 MHz
descriptor have the bandwidth codes 6 and 8. -/
theorem bandwith_four_bits_witness :
    ((148500000 : Nat) > 100000000 ∧
      (to_pll_config ⟨50000000, 148500000, 12, 2, 2⟩).bandwith = 6) ∧
    ((100000000 : Nat) ≤ 100000000 ∧
      (to_pll_config ⟨50000000, 100000000, 12, 2, 3⟩).bandwith = 8) :=
  ⟨⟨by decide,
      (bandwith_four_bits ⟨50000000, 148500000, 12, 2, 2⟩).2.2.2.2.1 (by decide)⟩,
   ⟨by decide,
      (bandwith_four_bits ⟨50000000, 100000000, 12, 2, 3⟩).2.2.2.1 (by decide)⟩⟩

/-- Decoding of an encoded counter: the sum of the low and the high half. -/
theorem to_counter_reg_halves :
    ∀ count, count ≤ 255 →
      (to_counter_reg count &&& 0xFF) + ((to_counter_reg count >>> 8) &&& 0xFF) = count := by
  decide!

/-- C20: the counter encoding is decodable on the 8-bit range.  For every
count up to 255 with `r = to_counter_reg count`: the low byte plus the byte in
bits [15:8] is `count`, bit 17 is `count mod 2`, the bypass bit 16 is clear and
no bit above 17 is set; hence `to_counter_reg` is injective on the range.  The
decoding fails at 512, where the low half is 256. -/
theorem to_counter_reg_decodable :
    (∀ count, count ≤ 255 →
      (to_counter_reg count &&& 0xFF) + ((to_counter_reg count >>> 8) &&& 0xFF) = count ∧
      (to_counter_reg count >>> 17) &&& 1 = count % 2 ∧
      to_counter_reg count &&& COUNTER_BYPASS_ENABLE = 0 ∧
      to_counter_reg count >>> 18 = 0) ∧
    (∀ a b, a ≤ 255 → b ≤ 255 → to_counter_reg a = to_counter_reg b → a = b) ∧
    (to_counter_reg 512 &&& 0xFF) + ((to_counter_reg 512 >>> 8) &&& 0xFF) ≠ 512 := by
  refine ⟨?_, ?_, ?_⟩
  · decide!
  · intro a b ha hb h
    have h1 := to_counter_reg_halves a ha
    have h2 := to_counter_reg_halves b hb
    rw [h] at h1
    exact h1.symm.trans h2
  · decide

/-- Witness of C20: the counts 5 and 255. -/
theorem to_counter_reg_decodable_witness :
    (5 ≤ 255 ∧ (to_counter_reg 5 &&& 0xFF) + ((to_counter_reg 5 >>> 8) &&& 0xFF) = 5) ∧
    (255 ≤ 255 ∧ (to_counter_reg 255 >>> 17) &&& 1 = 255 % 2) :=
  ⟨⟨by decide, (to_counter_reg_decodable.1 5 (by decide)).1⟩,
   ⟨by decide, (to_counter_reg_decodable.1 255 (by decide)).2.1⟩⟩

/-! ## Theorems: further properties of the selector -/

/-- C13 as stated fails: for a descriptor with `n = 0` the self-comparison
divides by zero and returns nothing. -/
theorem choose_better_self_div_zero :
    choose_better ⟨50000000, 100000000, 2, 0, 1⟩ ⟨50000000, 100000000, 2, 0, 1⟩
      = .div_zero := by
  decide

/-- C13 as amended: `choose_better` is idempotent under self-comparison on
descriptors with non-zero `n` and `c`.  For every such descriptor
`choose_better a a` returns `a`; with a zero `n` or `c` it divides by zero. -/
theorem choose_better_self (a : pll_descr) :
    (a.n ≠ 0 → a.c ≠ 0 → choose_better a a = .ok a) ∧
    (a.n = 0 ∨ a.c = 0 → choose_better a a = .div_zero) := by
  constructor
  · intro hn hc
    have h1 : ¬ (a.n = 0 ∨ a.c = 0) := by
      intro h; rcases h with h | h
      · exact hn h
      · exact hc h
    unfold choose_better
    simp only [h1, if_false]
    split_ifs with h2 h3 h4
    · exact absurd h3 (lt_irrefl _)
    · rfl
    · exact absurd h4 (lt_irrefl _)
    · rfl
  · intro h
    unfold choose_better
    simp only [h, if_true]

/-- Witness of C13 as amended: the seed descriptor of a 100 MHz request. -/
theorem choose_better_self_witness :
    (2 : Nat) ≠ 0 ∧ (1 : Nat) ≠ 0 ∧
    choose_better ⟨50000000, 100000000, 2, 2, 1⟩ ⟨50000000, 100000000, 2, 2, 1⟩
      = .ok ⟨50000000, 100000000, 2, 2, 1⟩ :=
  ⟨by decide, by decide,
    (choose_better_self ⟨50000000, 100000000, 2, 2, 1⟩).1 (by decide) (by decide)⟩

/-! ## Theorems: further properties of the search -/

/-- A call of `next` divides by zero exactly when it reaches a `c` whose `u32`
product `c * f_out` is zero before it accepts a pair. -/
theorem next_div_zero_iff (seed : pll_descr) (hf : seed.f_in ≠ 0) :
    next seed = .div_zero ↔
      ∃ j, c_first seed ≤ j ∧ j < 256 ∧ c_f_out_of seed.f_out j = 0 ∧
        ∀ i, c_first seed ≤ i → i < j → ∀ k, m_start seed.f_in seed.f_out i ≤ k → k < 256 →
          ¬ acc seed.f_in seed.f_out i k := by
  have hspec := next_spec seed hf
  constructor
  · intro h
    rw [h] at hspec
    obtain ⟨j, h1, h2, h3, _, h5⟩ := hspec
    exact ⟨j, h1, h2, h3, h5⟩
  · intro ⟨j, h1, h2, h3, h5⟩
    revert hspec
    cases hres : next seed with
    | ok p =>
      obtain ⟨r, d⟩ := p
      intro hspec
      exfalso
      rcases hspec with ⟨_, _, _, g⟩ | ⟨_, _, g⟩
      · obtain ⟨g1, g2, g3, g4, _, g6, _, _, g9⟩ := g
        by_cases hjc : j ≤ d.c
        · exact g9 j h1 hjc h3
        · exact h5 d.c g1 (by omega) d.m g3 g4 g6
      · exact g.2 j h1 h2 h3
    | div_zero => intro _; rfl
    | timeout => intro hspec; exact hspec.elim

/-- C12 (the code at the failing inputs): with `f_in = 50 MHz` and `f_out = 0`
the first iteration, `c = 2`, has `c_f_out = 0`, passes the guard
`f_fb >= 2 * c_f_out` with `f_fb = 0` and divides `f_fb` by `c_f_out`; the same
happens at `c = 128` for `f_out = 33554432`, whose product wraps to zero.  Both
clock operations divide by zero for these requested rates. -/
theorem next_zero_product_div_zero :
    next ⟨50000000, 0, 2, 2, 1⟩ = .div_zero ∧
    c_f_out_of 0 2 = 0 ∧
    next ⟨50000000, 33554432, 2, 2, 127⟩ = .div_zero ∧
    c_f_out_of 33554432 128 = 0 ∧
    altera_pll_set_rate ⟨0, 4096⟩ 0 0 = .div_zero ∧
    altera_pll_round_rate ⟨0, 4096⟩ 0 = .div_zero ∧
    altera_pll_set_rate ⟨0, 4096⟩ 33554432 0 = .div_zero := by
  have h0 : search_select 0 = .div_zero := by
    rw [← search_select_fast_eq]; decide!
  have h1 : search_select 33554432 = .div_zero := by
    rw [← search_select_fast_eq]; decide!
  refine ⟨?_, by decide, ?_, by decide, ?_, ?_, ?_⟩
  · rw [← next_fast_eq]; decide!
  · rw [← next_fast_eq]; decide!
  · unfold altera_pll_set_rate
    rw [h0]; rfl
  · unfold altera_pll_round_rate
    rw [h0]; rfl
  · unfold altera_pll_set_rate
    rw [h1]; rfl

/-- C19 (the code at the failing input): for a requested rate of 148.5 MHz
the loop ends with the seed descriptor `(2, 2, 1)`, whose error is `98500000`,
although the first candidate `(12, 2, 2)` that `next` produced has the error
`-1500000`. -/
theorem select_not_best_148500kHz :
    search_select 148500000 = .ok ⟨50000000, 148500000, 2, 2, 1⟩ ∧
    seed_descr 148500000 = ⟨50000000, 148500000, 2, 2, 1⟩ ∧
    next (seed_descr 148500000) = .ok (1, ⟨50000000, 148500000, 12, 2, 2⟩) ∧
    error_signed ⟨50000000, 148500000, 2, 2, 1⟩ = 98500000 ∧
    error_signed ⟨50000000, 148500000, 12, 2, 2⟩ = -1500000 ∧
    ¬ (|error_signed ⟨50000000, 148500000, 2, 2, 1⟩|
        ≤ |error_signed ⟨50000000, 148500000, 12, 2, 2⟩|) := by
  refine ⟨?_, by decide, ?_, by decide, by decide, by decide⟩
  · rw [← search_select_fast_eq]; decide!
  · rw [← next_fast_eq]; decide!

/-! ## Theorems: further properties of the clock operations -/

theorem print_descr_no_timeout (d : pll_descr) : print_descr d ≠ .timeout := by
  unfold print_descr
  split_ifs <;> exact fun h => Outcome.noConfusion h

theorem get_actual_rate_no_timeout (d : pll_descr) : get_actual_rate d ≠ .timeout := by
  unfold get_actual_rate
  simp only
  split_ifs <;> exact fun h => Outcome.noConfusion h

/-- What `altera_pll_round_rate` can do: divide by zero, or return with the
device unchanged and without a store. -/
theorem round_rate_frame (pll : altera_pll) (rate : Nat) :
    altera_pll_round_rate pll rate = .div_zero ∨
    ∃ r, altera_pll_round_rate pll rate = .ok (r, pll, []) := by
  unfold altera_pll_round_rate
  by_cases hm : pll.mmio = 0
  · rw [if_pos hm]
    by_cases hr : rate = pll.rate
    · rw [if_pos hr]; exact Or.inr ⟨_, rfl⟩
    · rw [if_neg hr]; exact Or.inr ⟨_, rfl⟩
  · rw [if_neg hm]
    cases hs : search_select rate with
    | ok w =>
      dsimp only
      cases hp : print_descr w with
      | ok u =>
        dsimp only
        cases hg : get_actual_rate w with
        | ok r => exact Or.inr ⟨r, rfl⟩
        | div_zero => exact Or.inl rfl
        | timeout => exact absurd hg (get_actual_rate_no_timeout w)
      | div_zero => exact Or.inl rfl
      | timeout => exact absurd hp (print_descr_no_timeout w)
    | div_zero => exact Or.inl rfl
    | timeout => exact absurd hs (search_select_no_timeout rate)

/-- C16: `altera_pll_round_rate`, `altera_pll_recalc_rate`, `altera_pll_enable`
and `altera_pll_disable` perform no register store and leave the device (stored
rate and register base) unchanged, for every device and argument.
`altera_pll_round_rate` either divides by zero in the search or returns;
`altera_pll_enable` returns 0 and `altera_pll_recalc_rate` returns the stored
rate whatever `parent_rate` is. -/
theorem clock_ops_frame (pll : altera_pll) (rate parent_rate : Nat) :
    (altera_pll_round_rate pll rate = .div_zero ∨
      ∃ r, altera_pll_round_rate pll rate = .ok (r, pll, [])) ∧
    (∀ r pll1 ws, altera_pll_round_rate pll rate = .ok (r, pll1, ws) →
      pll1 = pll ∧ ws = []) ∧
    altera_pll_recalc_rate pll parent_rate = (pll.rate, pll, []) ∧
    altera_pll_enable pll = (0, pll, []) ∧
    altera_pll_disable pll = (pll, []) := by
  refine ⟨round_rate_frame pll rate, ?_, rfl, rfl, rfl⟩
  intro r pll1 ws h
  rcases round_rate_frame pll rate with h1 | ⟨r1, h1⟩
  · rw [h1] at h; exact Outcome.noConfusion h
  · rw [h1] at h
    simp only [Outcome.ok.injEq, Prod.mk.injEq] at h
    exact ⟨h.2.1.symm, h.2.2.symm⟩

theorem next_seed_100MHz :
    next (seed_descr 100000000) = .ok (1, ⟨50000000, 100000000, 12, 2, 3⟩) := by
  rw [← next_fast_eq]
  decide!

/-- C14: the fixture `f_in = 50 MHz`, requested rate 100 MHz, on a device with
a register interface.  The first candidate from the seed `(2, 2, 1)` is
`(12, 2, 3)`, the loop ends with it, `altera_pll_round_rate` returns
100000000, and `altera_pll_set_rate` returns 0, stores the rate 100000000 and
performs the stores MODE = 0, COUNT_M = 0x606, COUNT_N = 0x101,
COUNT_C = 0x20201, BANDWITH = 8, CHARGE_PUMP = 2, START = 1 in this order. -/
theorem fixture_100MHz (pll : altera_pll) (parent_rate : Nat) (hmmio : pll.mmio ≠ 0) :
    next (seed_descr 100000000) = .ok (1, ⟨50000000, 100000000, 12, 2, 3⟩) ∧
    search_select 100000000 = .ok ⟨50000000, 100000000, 12, 2, 3⟩ ∧
    altera_pll_round_rate pll 100000000 = .ok (100000000, pll, []) ∧
    altera_pll_set_rate pll 100000000 parent_rate =
      .ok (0, { pll with rate := 100000000 },
        [ { addr := pll.mmio + 0 * 4, val := 0x0 },
          { addr := pll.mmio + 4 * 4, val := 0x606 },
          { addr := pll.mmio + 3 * 4, val := 0x101 },
          { addr := pll.mmio + 5 * 4, val := 0x20201 },
          { addr := pll.mmio + 8 * 4, val := 0x8 },
          { addr := pll.mmio + 9 * 4, val := 0x2 },
          { addr := pll.mmio + 2 * 4, val := 0x1 } ]) := by
  have hp : print_descr ⟨50000000, 100000000, 12, 2, 3⟩ = .ok () := by decide
  have hg : get_actual_rate ⟨50000000, 100000000, 12, 2, 3⟩ = .ok 100000000 := by decide!
  have hm : to_counter_reg 12 = 0x606 := by decide
  have hn : to_counter_reg 2 = 0x101 := by decide
  have hc : to_counter_reg 3 = 0x20201 := by decide
  refine ⟨next_seed_100MHz, search_select_100MHz, ?_, ?_⟩
  · unfold altera_pll_round_rate
    rw [if_neg hmmio, search_select_100MHz]
    dsimp only
    rw [hp]
    dsimp only
    rw [hg]
  · unfold altera_pll_set_rate
    rw [if_neg hmmio, search_select_100MHz]
    dsimp only
    rw [hp]
    dsimp only
    have hcfg : to_pll_config ⟨50000000, 100000000, 12, 2, 3⟩
        = ⟨100000000, 0x606, 0x101, 0x20201, 8, 2⟩ := by
      unfold to_pll_config
      dsimp only
      rw [hm, hn, hc]
      rfl
    rw [hcfg]
    rfl

/-- Witness of C14: a device with register base 4096 and stored rate 0. -/
theorem fixture_100MHz_witness :
    (⟨0, 4096⟩ : altera_pll).mmio ≠ 0 ∧
    altera_pll_round_rate ⟨0, 4096⟩ 100000000 = .ok (100000000, ⟨0, 4096⟩, []) ∧
    altera_pll_set_rate ⟨0, 4096⟩ 100000000 0 =
      .ok (0, { (⟨0, 4096⟩ : altera_pll) with rate := 100000000 },
        [ { addr := (⟨0, 4096⟩ : altera_pll).mmio + 0 * 4, val := 0x0 },
          { addr := (⟨0, 4096⟩ : altera_pll).mmio + 4 * 4, val := 0x606 },
          { addr := (⟨0, 4096⟩ : altera_pll).mmio + 3 * 4, val := 0x101 },
          { addr := (⟨0, 4096⟩ : altera_pll).mmio + 5 * 4, val := 0x20201 },
          { addr := (⟨0, 4096⟩ : altera_pll).mmio + 8 * 4, val := 0x8 },
          { addr := (⟨0, 4096⟩ : altera_pll).mmio + 9 * 4, val := 0x2 },
          { addr := (⟨0, 4096⟩ : altera_pll).mmio + 2 * 4, val := 0x1 } ]) :=
  ⟨by decide, (fixture_100MHz ⟨0, 4096⟩ 0 (by decide)).2.2.1,
    (fixture_100MHz ⟨0, 4096⟩ 0 (by decide)).2.2.2⟩

/-! ## Theorems: counter invariant -/

/-- The quotient `n` of an accepted pair lies between 2 and 14: the guard
`f_fb >= 2 * c_f_out` gives the lower bound and `f_fb / n >= 300000000` with
`f_fb < 2^32` the upper one. -/
theorem acc_n_bounds (f_in f_out c m : Nat) (h : acc f_in f_out c m) :
    2 ≤ f_fb_of f_in m / c_f_out_of f_out c ∧ f_fb_of f_in m / c_f_out_of f_out c ≤ 14 := by
  obtain ⟨h1, h2, h3, _⟩ := h
  have hfb : f_fb_of f_in m < U32_MOD := f_fb_of_lt f_in m
  generalize f_fb_of f_in m = fb at *
  generalize c_f_out_of f_out c = X at *
  have hXpos : 0 < X := by
    rcases Nat.eq_zero_or_pos X with h0 | h0
    · subst h0; simp at h2
    · exact h0
  constructor
  · exact (Nat.le_div_iff_mul_le hXpos).2 (by omega)
  · generalize fb / X = n at *
    have hnpos : 0 < n := Nat.pos_of_ne_zero h2
    have e : n * (fb / n) ≤ fb := Nat.mul_div_le fb n
    have e2 : n * 300000000 ≤ n * (fb / n) := Nat.mul_le_mul_left _ h3
    unfold U32_MOD at hfb
    omega

/-- With a non-zero `c_f_out` the guard of the inner loop excludes `n = 0`. -/
theorem guard_excludes_zero_n (f_in X m : Nat) (hX : X ≠ 0) (hg : f_fb_of f_in m ≥ 2 * X) :
    2 ≤ f_fb_of f_in m / X :=
  (Nat.le_div_iff_mul_le (Nat.pos_of_ne_zero hX)).2 (by omega)

/-- When the enumeration of the stream divides by zero, so does the loop. -/
theorem select_loop_div_zero :
    ∀ fuel descr tmp, candidates fuel tmp = .div_zero →
      select_loop fuel descr tmp = .div_zero := by
  intro fuel
  induction fuel with
  | zero => intro descr tmp h; exact Outcome.noConfusion h
  | succ fuel ih =>
    intro descr tmp h
    unfold candidates at h
    unfold select_loop
    revert h
    cases hn : next tmp with
    | ok p =>
      obtain ⟨r, tmp1⟩ := p
      intro h
      dsimp only at h ⊢
      by_cases hr : r ≠ 0
      · rw [if_pos hr] at h ⊢
        revert h
        cases hc : candidates fuel tmp1 with
        | ok l1 => intro h; exact Outcome.noConfusion h
        | div_zero =>
          intro _
          cases hcb : choose_better descr tmp1 with
          | ok d => exact ih d tmp1 hc
          | div_zero => rfl
          | timeout => exact absurd hcb (choose_better_no_timeout descr tmp1)
        | timeout => intro h; exact Outcome.noConfusion h
      · rw [if_neg hr] at h
        exact Outcome.noConfusion h
    | div_zero => intro _; rfl
    | timeout => intro h; exact Outcome.noConfusion h

/-- C18: accepted descriptors keep the counter invariant.  For every seed with
`u32` fields and a non-zero `f_in` (in particular `f_in = 50000000`), whenever
`next` returns 1 the descriptor has `2 ≤ n ≤ 255`, `1 ≤ c ≤ 255` and
`m ≤ 255`; with a non-zero `c_f_out` the guard `f_fb >= 2 * c_f_out` excludes
`n = 0`.  Hence the seed descriptor of the clock operations, every candidate of
their loop and the descriptor the loop ends with have non-zero `n` and `c` and
no counter above 255. -/
theorem accepted_counter_invariant :
    (∀ seed d : pll_descr, seed.wf → seed.f_in ≠ 0 → next seed = .ok (1, d) →
      2 ≤ d.n ∧ d.n ≤ 255 ∧ 1 ≤ d.c ∧ d.c ≤ 255 ∧ d.m ≤ 255) ∧
    (∀ f_in X m, X ≠ 0 → f_fb_of f_in m ≥ 2 * X → f_fb_of f_in m / X ≠ 0) ∧
    (∀ rate l, candidates 256 (seed_descr rate) = .ok l →
      ∀ x ∈ l, 2 ≤ x.n ∧ x.n ≤ 255 ∧ 1 ≤ x.c ∧ x.c ≤ 255 ∧ x.m ≤ 255) ∧
    (∀ rate w, search_select rate = .ok w →
      2 ≤ w.n ∧ w.n ≤ 255 ∧ 1 ≤ w.c ∧ w.c ≤ 255 ∧ w.m ≤ 255) := by
  have hstream : ∀ rate l, candidates 256 (seed_descr rate) = .ok l →
      ∀ x ∈ l, 2 ≤ x.n ∧ x.n ≤ 255 ∧ 1 ≤ x.c ∧ x.c ≤ 255 ∧ x.m ≤ 255 := by
    intro rate l hl x hx
    obtain ⟨_, _, p3, p4, p5, p6, p7, _⟩ :=
      candidates_props 256 (seed_descr rate) l (seed_descr_wf rate)
        (by show (50000000 : Nat) ≠ 0; decide) hl x hx
    have hb := acc_n_bounds _ _ _ _ p7
    rw [← p6] at hb
    exact ⟨hb.1, by omega, by omega, p4, p5⟩
  refine ⟨?_, ?_, hstream, ?_⟩
  · intro seed d hwf hf h
    obtain ⟨_, _, f3, f4, f5, f6, f7, _, _⟩ := next_found seed d 1 hwf hf h (by decide)
    have hb := acc_n_bounds _ _ _ _ f7
    rw [← f6] at hb
    exact ⟨hb.1, by omega, by omega, f4, f5⟩
  · intro f_in X m hX hg
    have := guard_excludes_zero_n f_in X m hX hg
    omega
  · intro rate w hw
    have hnt := candidates_no_timeout 256 (seed_descr rate) (seed_descr_wf rate)
      (by show (50000000 : Nat) ≠ 0; decide) (by decide) (Nat.le_add_right _ _)
    cases hc : candidates 256 (seed_descr rate) with
    | ok l =>
      have hfold : search_select rate = fold_choose (seed_descr rate) l :=
        select_loop_fold 256 (seed_descr rate) (seed_descr rate) l hc
      rw [hfold] at hw
      rcases fold_choose_mem l (seed_descr rate) w hw with e | e
      · rw [e]
        exact ⟨by show 2 ≤ 2; decide, by show 2 ≤ 255; decide, by show 1 ≤ 1; decide,
          by show 1 ≤ 255; decide, by show 2 ≤ 255; decide⟩
      · exact hstream rate l hc w e
    | div_zero =>
      -- the loop divides by zero as well and returns nothing
      have hdz : search_select rate = .div_zero :=
        select_loop_div_zero 256 (seed_descr rate) (seed_descr rate) hc
      rw [hdz] at hw
      exact Outcome.noConfusion hw
    | timeout => exact absurd hc hnt

/-- Witness of C18: the first candidate of a 100 MHz request. -/
theorem accepted_counter_invariant_witness :
    (seed_descr 100000000).wf ∧ (seed_descr 100000000).f_in ≠ 0 ∧
    next (seed_descr 100000000) = .ok (1, ⟨50000000, 100000000, 12, 2, 3⟩) ∧
    (2 ≤ 2 ∧ 2 ≤ 255 ∧ 1 ≤ 3 ∧ 3 ≤ 255 ∧ 12 ≤ 255) :=
  ⟨seed_descr_wf 100000000, by decide, next_seed_100MHz,
    accepted_counter_invariant.1 (seed_descr 100000000) ⟨50000000, 100000000, 12, 2, 3⟩
      (seed_descr_wf 100000000) (by decide) next_seed_100MHz⟩

/-! ## Theorems: associativity of the selector -/

theorem abs_ulong_of_lt (x : Nat) (h : x < U32_MOD) : abs_ulong x = (x : Int) := by
  have hmod : x % ULONG_MOD = x :=
    Nat.mod_eq_of_lt (lt_trans h (by unfold U32_MOD ULONG_MOD; decide))
  have h63 : x < 2 ^ 63 := lt_trans h (by unfold U32_MOD; decide)
  unfold abs_ulong to_long
  simp only [hmod, h63, if_true]
  rw [if_neg (by omega)]

theorem err_u32_lt (x : pll_descr) : err_u32 x < U32_MOD :=
  Nat.mod_lt _ (by decide)

/-- On descriptors with non-zero `n` and `c`, `choose_better a b` returns `b`
when `better b a` holds and `a` otherwise. -/
theorem choose_better_eq (a b : pll_descr) (ha : a.n ≠ 0 ∧ a.c ≠ 0) (hb : b.n ≠ 0 ∧ b.c ≠ 0) :
    choose_better a b = .ok (if better b a then b else a) := by
  have h1 : ¬ (a.n = 0 ∨ a.c = 0) := by
    intro h; rcases h with h | h
    · exact ha.1 h
    · exact ha.2 h
  have h2 : ¬ (b.n = 0 ∨ b.c = 0) := by
    intro h; rcases h with h | h
    · exact hb.1 h
    · exact hb.2 h
  have hform : choose_better a b =
      (if err_u32 a ≠ 0 ∨ err_u32 b ≠ 0 then
        (if abs_ulong (err_u32 a) > abs_ulong (err_u32 b) then .ok b else .ok a)
       else if sum_u32 a > sum_u32 b then .ok b else .ok a) := by
    unfold choose_better err_u32 sum_u32
    simp only [h1, h2, if_false]
  rw [hform, abs_ulong_of_lt _ (err_u32_lt a), abs_ulong_of_lt _ (err_u32_lt b)]
  unfold better
  by_cases hz : err_u32 a ≠ 0 ∨ err_u32 b ≠ 0
  · rw [if_pos hz]
    by_cases hlt : err_u32 b < err_u32 a
    · have hgt : ((err_u32 a : Nat) : Int) > ((err_u32 b : Nat) : Int) := by omega
      rw [if_pos hgt, if_pos (Or.inl ⟨hz, hlt⟩)]
    · have hgt : ¬ ((err_u32 a : Nat) : Int) > ((err_u32 b : Nat) : Int) := by omega
      rw [if_neg hgt, if_neg]
      intro h
      rcases h with ⟨_, h⟩ | ⟨h, h', _⟩
      · exact hlt h
      · rcases hz with hz | hz
        · exact hz h
        · exact hz h'
  · rw [if_neg hz]
    have hza : err_u32 a = 0 := by
      by_contra h; exact hz (Or.inl h)
    have hzb : err_u32 b = 0 := by
      by_contra h; exact hz (Or.inr h)
    by_cases hs : sum_u32 b < sum_u32 a
    · rw [if_pos hs, if_pos (Or.inr ⟨hza, hzb, hs⟩)]
    · rw [if_neg hs, if_neg]
      intro h
      rcases h with ⟨h, _⟩ | ⟨_, _, h⟩
      · exact hz h
      · exact hs h

theorem better_trans (a b c : pll_descr) (h1 : better b a) (h2 : better c b) : better c a := by
  unfold better at *
  generalize err_u32 a = ea at *
  generalize err_u32 b = eb at *
  generalize err_u32 c = ec at *
  generalize sum_u32 a = sa at *
  generalize sum_u32 b = sb at *
  generalize sum_u32 c = sc at *
  omega

theorem better_neg_trans (a b c : pll_descr) (h1 : ¬ better b a) (h2 : ¬ better c b) :
    ¬ better c a := by
  unfold better at *
  generalize err_u32 a = ea at *
  generalize err_u32 b = eb at *
  generalize err_u32 c = ec at *
  generalize sum_u32 a = sa at *
  generalize sum_u32 b = sb at *
  generalize sum_u32 c = sc at *
  omega

/-- C17: `choose_better` is associative on descriptors with non-zero `n` and
`c`.  All four calls return, and `choose_better (choose_better a b) c` and
`choose_better a (choose_better b c)` return the same descriptor. -/
theorem choose_better_assoc (a b c : pll_descr)
    (ha : a.n ≠ 0 ∧ a.c ≠ 0) (hb : b.n ≠ 0 ∧ b.c ≠ 0) (hc : c.n ≠ 0 ∧ c.c ≠ 0) :
    ∃ ab bc r, choose_better a b = .ok ab ∧ choose_better b c = .ok bc ∧
      choose_better ab c = .ok r ∧ choose_better a bc = .ok r := by
  have hab : (if better b a then b else a).n ≠ 0 ∧ (if better b a then b else a).c ≠ 0 := by
    split_ifs
    · exact hb
    · exact ha
  have hbc : (if better c b then c else b).n ≠ 0 ∧ (if better c b then c else b).c ≠ 0 := by
    split_ifs
    · exact hc
    · exact hb
  refine ⟨_, _, _, choose_better_eq a b ha hb, choose_better_eq b c hb hc,
    choose_better_eq _ c hab hc, ?_⟩
  rw [choose_better_eq a _ ha hbc]
  congr 1
  by_cases h1 : better b a
  · by_cases h2 : better c b
    · have h3 := better_trans a b c h1 h2
      simp only [h1, h2, h3, if_true]
    · simp only [h1, h2, if_true, if_false]
  · by_cases h2 : better c b
    · simp only [h1, h2, if_true, if_false]
    · have h3 := better_neg_trans a b c h1 h2
      simp only [h1, h2, h3, if_false]

/-- Witness of C17: the seed and the first two candidates of a 100 MHz request. -/
theorem choose_better_assoc_witness :
    ((⟨50000000, 100000000, 2, 2, 1⟩ : pll_descr).n ≠ 0 ∧
      (⟨50000000, 100000000, 2, 2, 1⟩ : pll_descr).c ≠ 0) ∧
    ∃ ab bc r,
      choose_better ⟨50000000, 100000000, 2, 2, 1⟩ ⟨50000000, 100000000, 12, 2, 3⟩ = .ok ab ∧
      choose_better ⟨50000000, 100000000, 12, 2, 3⟩ ⟨50000000, 100000000, 16, 2, 4⟩ = .ok bc ∧
      choose_better ab ⟨50000000, 100000000, 16, 2, 4⟩ = .ok r ∧
      choose_better ⟨50000000, 100000000, 2, 2, 1⟩ bc = .ok r :=
  ⟨⟨by decide, by decide⟩,
    choose_better_assoc ⟨50000000, 100000000, 2, 2, 1⟩ ⟨50000000, 100000000, 12, 2, 3⟩
      ⟨50000000, 100000000, 16, 2, 4⟩ ⟨by decide, by decide⟩ ⟨by decide, by decide⟩
      ⟨by decide, by decide⟩⟩

/-! ## Theorems: finiteness of the search -/

/-- The instrumented inner loop computes the result of `next_m`. -/
theorem next_m_run_fst (f_in X : Nat) :
    ∀ fuel m, (next_m_run f_in X fuel m).1 = next_m f_in X fuel m := by
  intro fuel
  induction fuel with
  | zero => intro m; rfl
  | succ fuel ih =>
    intro m
    unfold next_m_run next_m
    simp only [ih]
    split_ifs <;> rfl

/-- The inner loop body runs at most `256 - m` times. -/
theorem next_m_run_iters (f_in X : Nat) :
    ∀ fuel m, (next_m_run f_in X fuel m).2 ≤ 256 - m := by
  intro fuel
  induction fuel with
  | zero => intro m; exact Nat.zero_le _
  | succ fuel ih =>
    intro m
    unfold next_m_run
    by_cases hm : m < 256
    · have hmod : (m + 1) % U32_MOD = m + 1 := Nat.mod_eq_of_lt (by unfold U32_MOD; omega)
      have hrec := ih (m + 1)
      simp only [hm, if_true, hmod]
      split_ifs <;> simp only <;> omega
    · simp only [hm, if_false]
      exact Nat.zero_le _

/-- The instrumented outer loop computes the result of `next_c`. -/
theorem next_c_run_fst (f_in f_out : Nat) :
    ∀ fuel c, (next_c_run f_in f_out fuel c).1 = next_c f_in f_out fuel c := by
  intro fuel
  induction fuel with
  | zero => intro c; rfl
  | succ fuel ih =>
    intro c
    unfold next_c_run next_c
    by_cases hc : c < 256
    · simp only [hc, if_true]
      by_cases hf : f_in = 0
      · simp only [hf, if_true]
      · simp only [hf, if_false]
        rw [next_m_run_fst]
        cases hres : next_m f_in ((c * f_out) % U32_MOD) 257
            (((c * f_out) % U32_MOD / f_in) % U32_MOD) with
        | ok o =>
          cases o with
          | some p => rfl
          | none => exact ih _
        | div_zero => rfl
        | timeout => rfl
    · simp only [hc, if_false]

/-- The outer loop runs its body only for values of `c` from the start value
up to 255, and the inner loop body at most 256 times for each of them. -/
theorem next_c_run_bounds (f_in f_out : Nat) :
    ∀ fuel c, (next_c_run f_in f_out fuel c).2.1 ≤ (256 - c) * 256 ∧
      ∀ j ∈ (next_c_run f_in f_out fuel c).2.2, c ≤ j ∧ j ≤ 255 := by
  intro fuel
  induction fuel with
  | zero =>
    intro c
    exact ⟨Nat.zero_le _, fun j hj => absurd hj (List.not_mem_nil j)⟩
  | succ fuel ih =>
    intro c
    unfold next_c_run
    by_cases hc : c < 256
    · have hmod : (c + 1) % U32_MOD = c + 1 := Nat.mod_eq_of_lt (by unfold U32_MOD; omega)
      simp only [hc, if_true, hmod]
      have hself : ∀ j ∈ [c], c ≤ j ∧ j ≤ 255 := by
        intro j hj
        rw [List.mem_singleton] at hj
        omega
      by_cases hf : f_in = 0
      · simp only [hf, if_true]
        exact ⟨Nat.zero_le _, hself⟩
      · simp only [hf, if_false]
        have hin := next_m_run_iters f_in ((c * f_out) % U32_MOD) 257
          (((c * f_out) % U32_MOD / f_in) % U32_MOD)
        have hin256 : (next_m_run f_in ((c * f_out) % U32_MOD) 257
            (((c * f_out) % U32_MOD / f_in) % U32_MOD)).2 ≤ 256 := by omega
        obtain ⟨hr1, hr2⟩ := ih (c + 1)
        cases hres : (next_m_run f_in ((c * f_out) % U32_MOD) 257
            (((c * f_out) % U32_MOD / f_in) % U32_MOD)).1 with
        | ok o =>
          cases o with
          | some p => exact ⟨by dsimp only; omega, hself⟩
          | none =>
            refine ⟨by dsimp only; omega, ?_⟩
            intro j hj
            dsimp only at hj
            rcases List.mem_cons.1 hj with e | e
            · omega
            · have := hr2 j e
              omega
        | div_zero => exact ⟨by dsimp only; omega, hself⟩
        | timeout => exact ⟨by dsimp only; omega, hself⟩
    · simp only [hc, if_false]
      exact ⟨Nat.zero_le _, fun j hj => absurd hj (List.not_mem_nil j)⟩

/-- Started at the wrapped value `c = 0`, the search divides by zero in its
first inner iteration. -/
theorem next_c_run_zero (f_in f_out fuel : Nat) (hf : f_in ≠ 0) :
    (next_c_run f_in f_out (fuel + 1) 0).2.1 = 1 := by
  have hm : next_m_run f_in 0 257 0 = (.div_zero, 1) := by
    unfold next_m_run
    simp
  unfold next_c_run
  simp only [Nat.zero_mul, Nat.zero_mod, Nat.zero_div, hf, if_false]
  rw [hm]
  rfl

/-- One call of `next` runs the inner loop body at most `255 * 256` times. -/
theorem next_iters_le (seed : pll_descr) (hf : seed.f_in ≠ 0) :
    next_iters seed ≤ 255 * 256 := by
  unfold next_iters
  by_cases h0 : (seed.c + 1) % U32_MOD = 0
  · rw [h0, next_c_run_zero seed.f_in seed.f_out 256 hf]
    decide
  · have h := (next_c_run_bounds seed.f_in seed.f_out 257 ((seed.c + 1) % U32_MOD)).1
    have h1 : 256 - (seed.c + 1) % U32_MOD ≤ 255 := by omega
    calc _ ≤ (256 - (seed.c + 1) % U32_MOD) * 256 := h
      _ ≤ 255 * 256 := Nat.mul_le_mul_right _ h1

/-- A stream started from a descriptor with counter `c` has at most `255 - c`
elements. -/
theorem candidates_length :
    ∀ fuel tmp l, tmp.wf → tmp.f_in ≠ 0 → candidates fuel tmp = .ok l →
      l.length ≤ 255 - tmp.c := by
  intro fuel
  induction fuel with
  | zero => intro tmp l _ _ h; exact Outcome.noConfusion h
  | succ fuel ih =>
    intro tmp l hwf hf h
    unfold candidates at h
    revert h
    cases hn : next tmp with
    | ok p =>
      obtain ⟨r, tmp1⟩ := p
      intro h
      dsimp only at h
      by_cases hr : r ≠ 0
      · rw [if_pos hr] at h
        obtain ⟨f1, _, f3, f4, _, _, _, _, f9⟩ := next_found tmp tmp1 r hwf hf hn hr
        revert h
        cases hc : candidates fuel tmp1 with
        | ok l1 =>
          intro h
          simp only [Outcome.ok.injEq] at h
          subst h
          have := ih tmp1 l1 f9 (by rw [f1]; exact hf) hc
          rw [List.length_cons]
          omega
        | div_zero => intro h; exact Outcome.noConfusion h
        | timeout => intro h; exact Outcome.noConfusion h
      · rw [if_neg hr] at h
        simp only [Outcome.ok.injEq] at h
        subst h
        exact Nat.zero_le _
    | div_zero => intro h; exact Outcome.noConfusion h
    | timeout => intro h; exact Outcome.noConfusion h

theorem set_rate_no_timeout (pll : altera_pll) (rate parent_rate : Nat) :
    altera_pll_set_rate pll rate parent_rate ≠ .timeout := by
  unfold altera_pll_set_rate
  by_cases hm : pll.mmio = 0
  · rw [if_pos hm]; exact fun h => Outcome.noConfusion h
  · rw [if_neg hm]
    cases hs : search_select rate with
    | ok w =>
      dsimp only
      cases hp : print_descr w with
      | ok u => exact fun h => Outcome.noConfusion h
      | div_zero => exact fun h => Outcome.noConfusion h
      | timeout => exact absurd hp (print_descr_no_timeout w)
    | div_zero => exact fun h => Outcome.noConfusion h
    | timeout => exact absurd hs (search_select_no_timeout rate)

theorem round_rate_no_timeout (pll : altera_pll) (rate : Nat) :
    altera_pll_round_rate pll rate ≠ .timeout := by
  rcases round_rate_frame pll rate with h | ⟨r, h⟩
  · rw [h]; exact fun h => Outcome.noConfusion h
  · rw [h]; exact fun h => Outcome.noConfusion h

theorem search_select_25MHz :
    search_select 25000000 = .ok ⟨50000000, 25000000, 12, 2, 12⟩ := by
  rw [← search_select_fast_eq]
  decide!

theorem search_select_148500kHz :
    search_select 148500000 = .ok ⟨50000000, 148500000, 2, 2, 1⟩ := by
  rw [← search_select_fast_eq]
  decide!

theorem search_select_200MHz :
    search_select 200000000 = .ok ⟨50000000, 200000000, 16, 2, 2⟩ := by
  rw [← search_select_fast_eq]
  decide!

/-- C11: the search is finite.  For every seed with `u32` fields and a non-zero
`f_in`, one call of `next` runs the inner loop body at most `255 * 256` times
and the outer loop body only for values of `c` up to 255 (the counters are
those of the instrumented loops, which compute the result of `next`); the call
never runs out of fuel; a call that returns 1 returns a `c` above the one of
the seed and at most 255; re-invoking `next` on its own result yields at most
`255 - seed.c` candidates.  The loop of `altera_pll_round_rate` and
`altera_pll_set_rate` ends for every requested rate, and for 25 MHz, 100 MHz,
148.5 MHz and 200 MHz it ends with a descriptor. -/
theorem search_finite (seed : pll_descr) (hwf : seed.wf) (hf : seed.f_in ≠ 0) :
    (next_c_run seed.f_in seed.f_out 257 ((seed.c + 1) % U32_MOD)).1
      = next_c seed.f_in seed.f_out 257 ((seed.c + 1) % U32_MOD) ∧
    next_iters seed ≤ 255 * 256 ∧
    (∀ j ∈ next_examined seed, j ≤ 255) ∧
    next seed ≠ .timeout ∧
    (∀ d, next seed = .ok (1, d) → seed.c < d.c ∧ d.c ≤ 255) ∧
    (∀ fuel l, candidates fuel seed = .ok l → l.length ≤ 255 - seed.c) ∧
    candidates 256 seed ≠ .timeout ∧
    (∀ rate l, candidates 256 (seed_descr rate) = .ok l → l.length ≤ 254) ∧
    (∀ rate, search_select rate ≠ .timeout) ∧
    (∀ pll rate parent_rate, altera_pll_round_rate pll rate ≠ .timeout ∧
      altera_pll_set_rate pll rate parent_rate ≠ .timeout) ∧
    search_select 25000000 = .ok ⟨50000000, 25000000, 12, 2, 12⟩ ∧
    search_select 100000000 = .ok ⟨50000000, 100000000, 12, 2, 3⟩ ∧
    search_select 148500000 = .ok ⟨50000000, 148500000, 2, 2, 1⟩ ∧
    search_select 200000000 = .ok ⟨50000000, 200000000, 16, 2, 2⟩ := by
  refine ⟨next_c_run_fst _ _ _ _, next_iters_le seed hf, ?_, next_no_timeout seed hf, ?_, ?_,
    candidates_no_timeout 256 seed hwf hf (by decide) (Nat.le_add_right _ _), ?_,
    search_select_no_timeout, ?_, search_select_25MHz, search_select_100MHz,
    search_select_148500kHz, search_select_200MHz⟩
  · intro j hj
    exact ((next_c_run_bounds seed.f_in seed.f_out 257 ((seed.c + 1) % U32_MOD)).2 j hj).2
  · intro d h
    obtain ⟨_, _, f3, f4, _⟩ := next_found seed d 1 hwf hf h (by decide)
    exact ⟨f3, f4⟩
  · intro fuel l h
    exact candidates_length fuel seed l hwf hf h
  · intro rate l h
    exact candidates_length 256 (seed_descr rate) l (seed_descr_wf rate)
      (by show (50000000 : Nat) ≠ 0; decide) h
  · intro pll rate parent_rate
    exact ⟨round_rate_no_timeout pll rate, set_rate_no_timeout pll rate parent_rate⟩

/-- Witness of C11: the seed of a 100 MHz request. -/
theorem search_finite_witness :
    (seed_descr 100000000).wf ∧ (seed_descr 100000000).f_in ≠ 0 ∧
    next_iters (seed_descr 100000000) ≤ 255 * 256 ∧
    next (seed_descr 100000000) ≠ .timeout ∧
    candidates 256 (seed_descr 100000000) ≠ .timeout :=
  ⟨seed_descr_wf 100000000, by decide,
    (search_finite (seed_descr 100000000) (seed_descr_wf 100000000) (by decide)).2.1,
    (search_finite (seed_descr 100000000) (seed_descr_wf 100000000) (by decide)).2.2.2.1,
    (search_finite (seed_descr 100000000) (seed_descr_wf 100000000)
      (by decide)).2.2.2.2.2.2.1⟩

end AlteraPll
